import Mathlib

/-! # domaindetails-cli: the resolution pipeline

A shallow embedding of the Go sources

* `internal/cache/cache.go`   (bootstrap cache, staleness, TLD to server resolution)
* `internal/rdap/client.go`   (RDAP lookup and conversion)
* `internal/whois/client.go`  (WHOIS API lookup and conversion)
* `internal/cmd/lookup.go`    (fallback orchestration, domain validation)
* `internal/types/types.go`   (the shared result types)

Go strings are `String`; Go slices are `List` (a nil slice is `[]`); a Go
`(value, error)` pair is an `Except`; the files of the cache directory and
the outcomes of the network and file-system calls are explicit arguments.
The functions of `encoding/json`, `net/url` and `strings` that the code
calls are library code and are taken as parameters (`CacheCodec`,
`RDAPCodec`, `WhoisCodec`, `normalize`), so that every result below holds
for whatever those functions compute.
-/

set_option autoImplicit false

deriving instance DecidableEq for Except

namespace DomainDetails

/-! ## internal/types/types.go -/

/-- Go `types.ParsedData`. -/
structure ParsedData where
  DomainName : String := ""
  Registrar : String := ""
  Registrant : String := ""
  CreationDate : String := ""
  ExpirationDate : String := ""
  LastModified : String := ""
  Nameservers : List String := []
  Status : List String := []
  DNSSEC : String := ""
  WhoisServer : String := ""
  deriving DecidableEq, Repr

/-- Go `types.LookupResult`; the nil-able pointer `Parsed` is an `Option`. -/
structure LookupResult where
  Domain : String := ""
  Available : Bool := false
  Method : String := ""
  Message : String := ""
  Parsed : Option ParsedData := none
  Raw : String := ""
  deriving DecidableEq, Repr

/-! ## internal/cache/cache.go : data -/

/-- Go `cache.IANABootstrap`; `Services` is `[][][]string`. -/
structure IANABootstrap where
  Description : String := ""
  Publication : String := ""
  Services : List (List (List String)) := []
  Version : String := ""
  deriving DecidableEq, Repr

/-- Go `cache.CacheMeta`; `LastUpdated` is a `time.Time`, here an instant in
nanoseconds on the integer time line. -/
structure CacheMeta where
  LastUpdated : Int := 0
  Version : String := ""
  TLDCount : Nat := 0
  deriving DecidableEq, Repr

/-- Go `cache.CacheInfo`; `Age` is a `time.Duration` (nanoseconds). -/
structure CacheInfo where
  Path : String
  LastUpdated : Int
  TLDCount : Nat
  Age : Int
  IsValid : Bool
  deriving DecidableEq, Repr

/-- Go `cache.Cache`. -/
structure Cache where
  cacheDir : String
  deriving DecidableEq, Repr

/-- The two files `rdap-bootstrap.json` and `cache-meta.json` of the cache
directory; `none` is a file that `os.ReadFile` cannot read. -/
structure Disk where
  bootstrapFile : Option String := none
  metaFile : Option String := none
  deriving DecidableEq, Repr

/-- One nanosecond-resolution `time.Duration` constant: `time.Hour`. -/
def Hour : Int := 3600 * 1000000000

/-- Go `CacheTTL = 24 * time.Hour`. -/
def CacheTTL : Int := 24 * Hour

/-- Largest `time.Duration` (`1<<63 - 1`). -/
def maxDuration : Int := 2 ^ 63 - 1

/-- Smallest `time.Duration` (`-1 << 63`). -/
def minDuration : Int := -(2 ^ 63)

/-- Go `Time.Sub`: the difference of two instants as an `int64` duration;
a difference that does not fit is replaced by the largest or the smallest
duration. -/
def timeSub (t u : Int) : Int :=
  if maxDuration < t - u then maxDuration
  else if t - u < minDuration then minDuration
  else t - u

/-- Go `time.Since(t)` evaluated when the clock reads `now`; the instant
read from the metadata file carries no monotonic reading, so this is
`time.Now().Sub(t)`. -/
def timeSince (now t : Int) : Int := timeSub now t

/-! ## Library behaviour taken as parameters -/

/-- A decoded JSON value, as `json.Unmarshal` stores it in an `interface{}`
(the code never reads the payload of a number, a boolean or an object). -/
inductive JSON where
  | null : JSON
  | bool : Bool → JSON
  | num : Int → JSON
  | str : String → JSON
  | arr : List JSON → JSON
  | obj : List (String × JSON) → JSON

/-- Outcome of one `os.WriteFile`: success, or failure leaving some residue
in place of the file (the old content, a truncated file, or nothing). -/
inductive WriteOutcome where
  | ok : WriteOutcome
  | failed (residue : Option String) : WriteOutcome
  deriving DecidableEq, Repr

/-- Outcome of one HTTP exchange: the request could not be built, the
transport failed, or a response arrived with a status and a body (`none`
when `io.ReadAll` fails). -/
inductive HttpOutcome where
  | badRequest : HttpOutcome
  | transportError : HttpOutcome
  | response (status : Nat) (body : Option String) : HttpOutcome
  deriving DecidableEq, Repr

/-- Outcomes of the external calls of one pass through the cache code. -/
structure Env where
  /-- the clock when staleness is checked -/
  now : Int
  /-- the clock when `Update` stamps the metadata -/
  fetchTime : Int
  /-- whether `os.MkdirAll` succeeds -/
  mkdirOk : Bool
  /-- what `http.Get(IANABootstrapURL)` yields -/
  fetch : HttpOutcome
  bootstrapWrite : WriteOutcome
  metaWrite : WriteOutcome

/-! ## internal/cache/cache.go : errors -/

/-- The error returns of `Update`, one per `fmt.Errorf` site. -/
inductive UpdateError where
  | mkdir : UpdateError
  | fetch : UpdateError
  | status (code : Nat) : UpdateError
  | readBody : UpdateError
  | invalidData : UpdateError
  | writeBootstrap : UpdateError
  | marshalMeta : UpdateError
  | writeMeta : UpdateError
  deriving DecidableEq, Repr

/-- The error returns of `readBootstrap` and `getMeta`. -/
inductive ReadError where
  | readFile : ReadError
  | unmarshal : ReadError
  deriving DecidableEq, Repr

/-- The error returns of `getBootstrap`, `GetRDAPServer` and `Info`. -/
inductive CacheError where
  /-- "failed to fetch bootstrap data: %v" -/
  | fetchFailed (cause : UpdateError) : CacheError
  /-- the error of the final `readBootstrap`, returned as is -/
  | read (cause : ReadError) : CacheError
  /-- "no RDAP server found for TLD: %s" -/
  | noServer (tld : String) : CacheError
  /-- "cache not found or invalid: %v" -/
  | noInfo (cause : ReadError) : CacheError
  deriving DecidableEq, Repr

/-- The `encoding/json` calls of the cache code. -/
structure CacheCodec where
  /-- `json.Unmarshal(data, &bootstrap)`; `none` is an error -/
  decodeBootstrap : String → Option IANABootstrap
  /-- `json.Unmarshal(data, &meta)`; `none` is an error -/
  decodeMeta : String → Option CacheMeta
  /-- `json.MarshalIndent(meta, "", "  ")`; `none` is an error -/
  encodeMeta : CacheMeta → Option String

/-! ## internal/cache/cache.go : operations -/

/-- Go `readBootstrap`: read and decode the bootstrap file. -/
def readBootstrap (j : CacheCodec) (d : Disk) : Except ReadError IANABootstrap :=
  match d.bootstrapFile with
  | none => .error .readFile
  | some data =>
    match j.decodeBootstrap data with
    | none => .error .unmarshal
    | some bootstrap => .ok bootstrap

/-- Go `getMeta`: read and decode the metadata file. -/
def getMeta (j : CacheCodec) (d : Disk) : Except ReadError CacheMeta :=
  match d.metaFile with
  | none => .error .readFile
  | some data =>
    match j.decodeMeta data with
    | none => .error .unmarshal
    | some m => .ok m

/-- The TLD-counting loop of `Update`:
`if len(service) > 0 { tldCount += len(service[0]) }`. -/
def countTLDs : List (List (List String)) → Nat → Nat
  | [], tldCount => tldCount
  | service :: rest, tldCount =>
    match service with
    | [] => countTLDs rest tldCount
    | tlds :: _ => countTLDs rest (tldCount + tlds.length)

/-- Go `Update`: fetch, validate, count, write both files. Returns the error
(if any) and the files as the call leaves them. -/
def Update (j : CacheCodec) (env : Env) (d : Disk) : Except UpdateError Unit × Disk :=
  if !env.mkdirOk then (.error .mkdir, d) else
  match env.fetch with
  | .badRequest => (.error .fetch, d)
  | .transportError => (.error .fetch, d)
  | .response status readAll =>
    if status ≠ 200 then (.error (.status status), d) else
    match readAll with
    | none => (.error .readBody, d)
    | some body =>
      match j.decodeBootstrap body with
      | none => (.error .invalidData, d)
      | some bootstrap =>
        let tldCount := countTLDs bootstrap.Services 0
        match env.bootstrapWrite with
        | .failed residue => (.error .writeBootstrap, { d with bootstrapFile := residue })
        | .ok =>
          let d1 : Disk := { d with bootstrapFile := some body }
          let m : CacheMeta :=
            { LastUpdated := env.fetchTime, Version := bootstrap.Version, TLDCount := tldCount }
          match j.encodeMeta m with
          | none => (.error .marshalMeta, d1)
          | some metaData =>
            match env.metaWrite with
            | .failed residue => (.error .writeMeta, { d1 with metaFile := residue })
            | .ok => (.ok (), { d1 with metaFile := some metaData })

/-- The first branch of `getBootstrap`: the snapshot read when the metadata
decodes and is younger than `CacheTTL`, if that read succeeds. -/
def readValid (j : CacheCodec) (env : Env) (d : Disk) : Option IANABootstrap :=
  match getMeta j d with
  | .error _ => none
  | .ok m =>
    if timeSince env.now m.LastUpdated < CacheTTL then
      match readBootstrap j d with
      | .ok data => some data
      | .error _ => none
    else none

/-- Go `getBootstrap`: the valid cache, else a refresh, else the stale file. -/
def getBootstrap (j : CacheCodec) (env : Env) (d : Disk) :
    Except CacheError IANABootstrap × Disk :=
  match readValid j env d with
  | some data => (.ok data, d)
  | none =>
    match Update j env d with
    | (.error err, d1) =>
      match readBootstrap j d1 with
      | .ok data => (.ok data, d1)
      | .error _ => (.error (.fetchFailed err), d1)
    | (.ok _, d1) =>
      match readBootstrap j d1 with
      | .ok data => (.ok data, d1)
      | .error e => (.error (.read e), d1)

/-- The inner loop of `GetRDAPServer` over the labels of one service:
`if t == tld && len(urls) > 0 { return urls[0], nil }`. -/
def scanTLDs (tld : String) (urls : List String) : List String → Option String
  | [] => none
  | t :: rest =>
    if t = tld ∧ urls.length > 0 then
      match urls with
      | u :: _ => some u
      | [] => scanTLDs tld urls rest
    else scanTLDs tld urls rest

/-- The outer loop of `GetRDAPServer` over the services; a service with
fewer than two components is skipped. -/
def scanServices (tld : String) : List (List (List String)) → Option String
  | [] => none
  | service :: rest =>
    if service.length < 2 then scanServices tld rest
    else
      match service with
      | tlds :: urls :: _ =>
        match scanTLDs tld urls tlds with
        | some u => some u
        | none => scanServices tld rest
      | _ => scanServices tld rest

/-- Go `GetRDAPServer`. -/
def GetRDAPServer (j : CacheCodec) (env : Env) (d : Disk) (tld : String) :
    Except CacheError String × Disk :=
  match getBootstrap j env d with
  | (.error err, d1) => (.error err, d1)
  | (.ok bootstrap, d1) =>
    match scanServices tld bootstrap.Services with
    | some u => (.ok u, d1)
    | none => (.error (.noServer tld), d1)

/-- Go `Info`, evaluated when the clock reads `now`. -/
def Info (j : CacheCodec) (c : Cache) (now : Int) (d : Disk) : Except CacheError CacheInfo :=
  match getMeta j d with
  | .error err => .error (.noInfo err)
  | .ok m =>
    let age := timeSince now m.LastUpdated
    .ok { Path := c.cacheDir
          LastUpdated := m.LastUpdated
          TLDCount := m.TLDCount
          Age := age
          IsValid := decide (age < CacheTTL) }

/-- Go `Clear`: both removals are best effort, the call never fails. -/
def Clear (_d : Disk) : Except CacheError Unit × Disk :=
  (.ok (), { bootstrapFile := none, metaFile := none })

/-! ## internal/rdap/client.go : data -/

/-- Go `rdap.RDAPEvent`. -/
structure RDAPEvent where
  EventAction : String := ""
  EventDate : String := ""
  EventActor : String := ""
  deriving DecidableEq, Repr

/-- Go `rdap.RDAPEntity`; `VCardArray` is the raw JSON text (`json.RawMessage`). -/
inductive RDAPEntity where
  | mk (Handle : String) (Roles : List String) (VCardArray : String)
      (Entities : List RDAPEntity) : RDAPEntity

/-- Field `Handle` of an entity. -/
def RDAPEntity.Handle : RDAPEntity → String
  | .mk handle _ _ _ => handle

/-- Field `Roles` of an entity. -/
def RDAPEntity.Roles : RDAPEntity → List String
  | .mk _ roles _ _ => roles

/-- Field `VCardArray` of an entity. -/
def RDAPEntity.VCardArray : RDAPEntity → String
  | .mk _ _ vcardArray _ => vcardArray

/-- Field `Entities` of an entity. -/
def RDAPEntity.Entities : RDAPEntity → List RDAPEntity
  | .mk _ _ _ entities => entities

/-- Go `rdap.RDAPNameserver`. -/
structure RDAPNameserver where
  LDHName : String := ""
  UnicodeName : String := ""
  deriving DecidableEq, Repr

/-- Go `rdap.RDAPSecureDNS`. -/
structure RDAPSecureDNS where
  DelegationSigned : Bool := false
  deriving DecidableEq, Repr

/-- Go `rdap.RDAPLink`; its field `Type` is `LinkType` here. -/
structure RDAPLink where
  Rel : String := ""
  Href : String := ""
  LinkType : String := ""
  deriving DecidableEq, Repr

/-- Go `rdap.RDAPRemark`. -/
structure RDAPRemark where
  Title : String := ""
  Description : List String := []
  deriving DecidableEq, Repr

/-- Go `rdap.RDAPResponse`; the nil-able pointer `SecureDNS` is an `Option`. -/
structure RDAPResponse where
  ObjectClassName : String := ""
  LDHName : String := ""
  UnicodeName : String := ""
  Handle : String := ""
  Status : List String := []
  Events : List RDAPEvent := []
  Entities : List RDAPEntity := []
  Nameservers : List RDAPNameserver := []
  SecureDNS : Option RDAPSecureDNS := none
  Links : List RDAPLink := []
  Remarks : List RDAPRemark := []
  Port43 : String := ""
  ErrorCode : Int := 0
  Title : String := ""
  Description : List String := []

/-- The `encoding/json` calls of the RDAP client. -/
structure RDAPCodec where
  /-- `json.Unmarshal(body, &rdapResp)`; `none` is an error -/
  decodeResponse : String → Option RDAPResponse
  /-- the JSON value a raw message denotes; `none` when it is not valid JSON -/
  parseJSON : String → Option JSON

/-- The error returns of the RDAP `Lookup`, one per `fmt.Errorf` site. -/
inductive RDAPError where
  /-- "no RDAP server for TLD .%s: %v" -/
  | noServer (tld : String) (cause : CacheError) : RDAPError
  | createRequest : RDAPError
  | requestFailed : RDAPError
  | readResponse : RDAPError
  /-- "RDAP server returned status %d" -/
  | status (code : Nat) : RDAPError
  | parse : RDAPError
  deriving DecidableEq, Repr

/-! ## internal/rdap/client.go : operations -/

/-- Go `len` of a string: its length in bytes. -/
def len (s : String) : Nat := s.utf8ByteSize

/-- Split a character list at every occurrence of `sep`. -/
def splitChars (sep : Char) : List Char → List (List Char)
  | [] => [[]]
  | c :: cs =>
    if c = sep then [] :: splitChars sep cs
    else
      match splitChars sep cs with
      | [] => [[c]]
      | part :: parts => (c :: part) :: parts

/-- Go `strings.Split(s, ".")`. -/
def splitDot (s : String) : List String :=
  (splitChars '.' s.toList).map String.mk

namespace rdap

/-- The map `secondLevel` of `extractTLD`, as the list of its keys. -/
def secondLevel : List String :=
  ["co.uk", "org.uk", "me.uk",
   "com.au", "net.au", "org.au",
   "co.nz", "net.nz", "org.nz",
   "co.za", "co.in", "com.br"]

/-- Go `extractTLD`. -/
def extractTLD (domain : String) : String :=
  let parts := splitDot domain
  if parts.length < 2 then ""
  else if parts.length ≥ 3 then
    let twoLevel := parts.getD (parts.length - 2) "" ++ "." ++ parts.getD (parts.length - 1) ""
    if secondLevel.contains twoLevel then twoLevel
    else parts.getD (parts.length - 1) ""
  else parts.getD (parts.length - 1) ""

/-- Go `json.Unmarshal(raw, &vcard)` for `vcard []interface{}`: a JSON array
gives its elements, JSON `null` gives the nil slice, anything else is an
error (`none`). -/
def unmarshalSlice (j : RDAPCodec) (raw : String) : Option (List JSON) :=
  match j.parseJSON raw with
  | some (.arr xs) => some xs
  | some .null => some []
  | _ => none

/-- The loop of `extractEntityName` over the vCard fields; `none` when the
loop ends without a `return`. -/
def scanFields : List JSON → Option String
  | [] => none
  | field :: rest =>
    match field with
    | .arr f =>
      if f.length ≥ 4 then
        match f.get? 0 with
        | some (.str tag) =>
          if tag = "fn" then
            match f.get? 3 with
            | some (.str name) => some name
            | _ => scanFields rest
          else scanFields rest
        | _ => scanFields rest
      else scanFields rest
    | _ => scanFields rest

/-- Go `extractEntityName`. -/
def extractEntityName (j : RDAPCodec) (entity : RDAPEntity) : String :=
  if entity.Handle ≠ "" then entity.Handle
  else if len entity.VCardArray > 0 then
    match unmarshalSlice j entity.VCardArray with
    | none => ""
    | some vcard =>
      if vcard.length ≥ 2 then
        match vcard.get? 1 with
        | some (.arr fields) =>
          match scanFields fields with
          | some name => name
          | none => ""
        | _ => ""
      else ""
  else ""

/-- One pass of the event loop of `convertToResult` (the `switch`). -/
def applyEvent (parsed : ParsedData) (event : RDAPEvent) : ParsedData :=
  if event.EventAction = "registration" then { parsed with CreationDate := event.EventDate }
  else if event.EventAction = "expiration" then { parsed with ExpirationDate := event.EventDate }
  else if event.EventAction = "last changed" then { parsed with LastModified := event.EventDate }
  else parsed

/-- One pass of the nameserver loop of `convertToResult`. -/
def applyNameserver (parsed : ParsedData) (ns : RDAPNameserver) : ParsedData :=
  { parsed with Nameservers := parsed.Nameservers ++ [ns.LDHName] }

/-- One pass of the role loop of `convertToResult` for the entity `entity`. -/
def applyRole (j : RDAPCodec) (entity : RDAPEntity) (parsed : ParsedData) (role : String) :
    ParsedData :=
  let p1 := if role = "registrar" then
      { parsed with Registrar := extractEntityName j entity } else parsed
  if role = "registrant" then { p1 with Registrant := extractEntityName j entity } else p1

/-- One pass of the entity loop of `convertToResult`. -/
def applyEntity (j : RDAPCodec) (parsed : ParsedData) (entity : RDAPEntity) : ParsedData :=
  entity.Roles.foldl (applyRole j entity) parsed

/-- The DNSSEC block of `convertToResult`. -/
def applySecureDNS (parsed : ParsedData) (secureDNS : Option RDAPSecureDNS) : ParsedData :=
  match secureDNS with
  | none => parsed
  | some sd =>
    if sd.DelegationSigned then { parsed with DNSSEC := "signed" }
    else { parsed with DNSSEC := "unsigned" }

/-- The record `parsed` as `convertToResult` has built it when it returns. -/
def convertParsed (j : RDAPCodec) (resp : RDAPResponse) : ParsedData :=
  let parsed : ParsedData := { DomainName := resp.LDHName, Status := resp.Status }
  let parsed := resp.Events.foldl applyEvent parsed
  let parsed := resp.Nameservers.foldl applyNameserver parsed
  let parsed := resp.Entities.foldl (applyEntity j) parsed
  applySecureDNS parsed resp.SecureDNS

/-- Go `(*rdap.Client).convertToResult`. -/
def convertToResult (j : RDAPCodec) (domain : String) (resp : RDAPResponse) (raw : String) :
    LookupResult :=
  { Domain := domain
    Available := false
    Method := "rdap"
    Parsed := some (convertParsed j resp)
    Raw := raw }

/-- Go `(*rdap.Client).Lookup`; `http` gives the outcome of the GET of a URL.
Printing under `verbose` is left out. -/
def Lookup (cj : CacheCodec) (j : RDAPCodec) (env : Env) (http : String → HttpOutcome)
    (d : Disk) (domain : String) : Except RDAPError LookupResult × Disk :=
  let tld := extractTLD domain
  match GetRDAPServer cj env d tld with
  | (.error err, d1) => (.error (.noServer tld err), d1)
  | (.ok serverURL, d1) =>
    let queryURL := serverURL ++ "domain/" ++ domain
    match http queryURL with
    | .badRequest => (.error .createRequest, d1)
    | .transportError => (.error .requestFailed, d1)
    | .response statusCode readAll =>
      match readAll with
      | none => (.error .readResponse, d1)
      | some body =>
        if statusCode = 404 then
          (.ok { Domain := domain
                 Available := true
                 Method := "rdap"
                 Message := "Domain not found in registry" }, d1)
        else if statusCode ≠ 200 then (.error (.status statusCode), d1)
        else
          match j.decodeResponse body with
          | none => (.error .parse, d1)
          | some rdapResp => (.ok (convertToResult j domain rdapResp body), d1)

end rdap

/-! ## internal/whois/client.go -/

/-- Go `whois.APIParsedData`. -/
structure APIParsedData where
  DomainName : String := ""
  Registrar : String := ""
  Registrant : String := ""
  CreationDate : String := ""
  ExpirationDate : String := ""
  LastModified : String := ""
  Nameservers : List String := []
  Status : List String := []
  DNSSEC : String := ""
  WhoisServer : String := ""
  deriving DecidableEq, Repr

/-- Go `whois.APIResponse`; the nil-able pointer `ParsedData` is an `Option`. -/
structure APIResponse where
  ParsedData : Option APIParsedData := none
  RawData : String := ""
  Error : String := ""
  deriving DecidableEq, Repr

/-- The library calls of the WHOIS client. -/
structure WhoisCodec where
  /-- `url.QueryEscape` -/
  queryEscape : String → String
  /-- `json.Unmarshal(body, &apiResp)`; `none` is an error -/
  decodeResponse : String → Option APIResponse
  /-- the field `errResp.Error` after the unchecked `json.Unmarshal(body, &errResp)` -/
  decodeErrorField : String → String

/-- The error returns of the WHOIS `Lookup`, one per `fmt.Errorf` site. -/
inductive WhoisError where
  | createRequest : WhoisError
  | requestFailed : WhoisError
  | readResponse : WhoisError
  /-- "API error: %s" -/
  | apiError (message : String) : WhoisError
  /-- "API returned status %d" -/
  | status (code : Nat) : WhoisError
  | parse : WhoisError
  deriving DecidableEq, Repr

namespace whois

/-- Go `whois.Client` (the fields the lookup reads). -/
structure Client where
  baseURL : String
  deriving DecidableEq, Repr

/-- Go `APIBaseURL`. -/
def APIBaseURL : String := "https://api.domaindetails.io"

/-- Go `whois.NewClient`. -/
def NewClient : Client := { baseURL := APIBaseURL }

/-- Go `(*whois.Client).convertToResult`. -/
def convertToResult (domain : String) (resp : APIResponse) : LookupResult :=
  let parsed : ParsedData :=
    match resp.ParsedData with
    | none => {}
    | some pd =>
      { DomainName := pd.DomainName
        Registrar := pd.Registrar
        Registrant := pd.Registrant
        CreationDate := pd.CreationDate
        ExpirationDate := pd.ExpirationDate
        LastModified := pd.LastModified
        Nameservers := pd.Nameservers
        Status := pd.Status
        DNSSEC := pd.DNSSEC
        WhoisServer := pd.WhoisServer }
  { Domain := domain
    Available := false
    Method := "whois"
    Parsed := some parsed
    Raw := resp.RawData }

/-- Go `(*whois.Client).Lookup`; `http` gives the outcome of the GET of a URL.
Printing under `verbose` is left out. -/
def Lookup (j : WhoisCodec) (c : Client) (http : String → HttpOutcome)
    (domain : String) : Except WhoisError LookupResult :=
  let apiURL := c.baseURL ++ "/api/whois?domain=" ++ j.queryEscape domain
  match http apiURL with
  | .badRequest => .error .createRequest
  | .transportError => .error .requestFailed
  | .response statusCode readAll =>
    match readAll with
    | none => .error .readResponse
    | some body =>
      if statusCode = 404 then
        .ok { Domain := domain
              Available := true
              Method := "whois"
              Message := "Domain not found" }
      else if statusCode ≠ 200 then
        if j.decodeErrorField body ≠ "" then .error (.apiError (j.decodeErrorField body))
        else .error (.status statusCode)
      else
        match j.decodeResponse body with
        | none => .error .parse
        | some apiResp =>
          if apiResp.Error ≠ "" then .error (.apiError apiResp.Error)
          else .ok (convertToResult domain apiResp)

end whois

/-! ## internal/cmd/lookup.go -/

/-- The character test of `isValidDomain` for the rune `c` at byte offset `i`
of a label of `partLen` bytes. -/
def validRune (partLen i : Nat) (c : Char) : Bool :=
  decide (('a' ≤ c ∧ c ≤ 'z') ∨ ('0' ≤ c ∧ c ≤ '9') ∨ (c = '-' ∧ i > 0 ∧ i < partLen - 1))

/-- The loop `for i, c := range part` of `isValidDomain`; `i` is the byte
offset of the next rune. -/
def validRunes (partLen : Nat) : Nat → List Char → Bool
  | _, [] => true
  | i, c :: cs => if !validRune partLen i c then false else validRunes partLen (i + c.utf8Size) cs

/-- The loop `for _, part := range parts` of `isValidDomain`. -/
def validParts : List String → Bool
  | [] => true
  | part :: rest =>
    if len part = 0 ∨ len part > 63 then false
    else if !validRunes (len part) 0 part.toList then false
    else validParts rest

/-- Go `isValidDomain`. -/
def isValidDomain (domain : String) : Bool :=
  if len domain < 3 ∨ len domain > 253 then false
  else
    let parts := splitDot domain
    if parts.length < 2 then false
    else validParts parts

/-- The client calls `runLookup` makes, in order. -/
inductive Call where
  | rdap (domain : String) : Call
  | whois (domain : String) : Call
  deriving DecidableEq, Repr

/-- The error returns of `runLookup`. -/
inductive RunError where
  /-- "invalid domain format: %s" -/
  | invalidDomain (domain : String) : RunError
  /-- "lookup failed: %v" -/
  | lookupFailed (cause : WhoisError) : RunError
  deriving DecidableEq, Repr

/-- Go `runLookup` up to the hand-over to the printer: the calls made to the
two clients and either the error returned or the result given to
`printer.Print`. `normalize` is `strings.ToLower(strings.TrimSpace(·))`;
`rdapClient` and `whoisClient` are the `Lookup` methods of the two clients. -/
def runLookup (normalize : String → String)
    (rdapClient : String → Except RDAPError LookupResult)
    (whoisClient : String → Except WhoisError LookupResult)
    (arg : String) : List Call × Except RunError LookupResult :=
  let domain := normalize arg
  if !isValidDomain domain then ([], .error (.invalidDomain domain))
  else
    match rdapClient domain with
    | .ok result => ([.rdap domain], .ok result)
    | .error _ =>
      match whoisClient domain with
      | .error err => ([.rdap domain, .whois domain], .error (.lookupFailed err))
      | .ok result => ([.rdap domain, .whois domain], .ok result)

/-! ## Specification-side notions for the registry scan -/

/-- The label list of a service entry (its first component) contains `tld`. -/
def listsTLD (tld : String) (service : List (List String)) : Bool :=
  match service with
  | tlds :: _ => tlds.contains tld
  | [] => false

/-- A service entry that can answer for `tld`: it has a label list and a URL
list, the label list contains `tld`, and the URL list is not empty. -/
def answersTLD (tld : String) (service : List (List String)) : Bool :=
  match service with
  | tlds :: urls :: _ => tlds.contains tld && !urls.isEmpty
  | _ => false

/-- The first candidate URL of a service entry. -/
def firstURL (service : List (List String)) : Option String :=
  match service with
  | _ :: (u :: _) :: _ => some u
  | _ => none

/-- A service entry shaped as the data model describes it: a label list and
at least one candidate URL. -/
def wellFormedEntry (service : List (List String)) : Bool :=
  match service with
  | _ :: (_ :: _) :: _ => true
  | _ => false

/-- A direct linear scan of the entry list: the first URL of the first entry
satisfying `p`. -/
def linearScan (p : List (List String) → Bool) (services : List (List (List String))) :
    Option String :=
  (services.find? p).bind firstURL

/-- The last two labels of a label list joined by `.`. -/
def lastTwoJoined (labels : List String) : String :=
  ".".intercalate (labels.drop (labels.length - 2))

/-- The last label of a label list (empty when there is none). -/
def lastLabel (labels : List String) : String :=
  labels.getLast?.getD ""

/-- The `eventDate` of the last event of the list whose `eventAction` is
`action`; empty when no event carries that action. -/
def lastEventDate (action : String) (events : List RDAPEvent) : String :=
  match (events.filter (fun e => e.EventAction = action)).getLast? with
  | some e => e.EventDate
  | none => ""

/-- An event whose action is one of the three date tags. -/
def isDateEvent (e : RDAPEvent) : Bool :=
  e.EventAction = "registration" ∨ e.EventAction = "expiration" ∨ e.EventAction = "last changed"

/-- The formatted name a vCard field carries: the fourth component of an
array of at least four components whose first is the string `fn`, when that
fourth component is a string. -/
def fnValue : JSON → Option String
  | .arr (.str tag :: _ :: _ :: .str name :: _) => if tag = "fn" then some name else none
  | _ => none

/-! ## Worked registries -/

/-- A registry whose only entry lists `com` and has no URL. -/
def registryNoURL : IANABootstrap :=
  { Services := [[["com"], []]], Version := "1.0" }

/-- A registry whose first entry lists `com` without a URL and whose second
entry lists `com` with one. -/
def registryLaterURL : IANABootstrap :=
  { Services := [[["com"], []], [["com", "net"], ["https://rdap.example/"]]], Version := "1.0" }

/-- An aged registry that resolves `com` and `net`. -/
def registryStale : IANABootstrap :=
  { Services := [[["com", "net"], ["https://rdap.stale.example/"]]], Version := "1.0" }

/-- A newer registry that resolves only `org`. -/
def registryFresh : IANABootstrap :=
  { Services := [[["org"], ["https://rdap.fresh.example/"]]], Version := "2.0" }

/-- A codec that knows four bootstrap documents and one metadata document. -/
def sampleCodec : CacheCodec :=
  { decodeBootstrap := fun s =>
      if s = "no-url" then some registryNoURL
      else if s = "later-url" then some registryLaterURL
      else if s = "stale" then some registryStale
      else if s = "fresh" then some registryFresh
      else none
    decodeMeta := fun s => if s = "meta" then some { LastUpdated := 0, TLDCount := 1 } else none
    encodeMeta := fun _ => some "meta" }

/-- An environment one nanosecond after the epoch with the network down. -/
def offlineEnv : Env :=
  { now := 1, fetchTime := 1, mkdirOk := true, fetch := .transportError,
    bootstrapWrite := .ok, metaWrite := .ok }

/-- The network is up and serves the document `fresh`, the bootstrap file is
written, and the write of the metadata file fails. -/
def metaWriteFailsEnv : Env :=
  { now := 1, fetchTime := 1, mkdirOk := true, fetch := .response 200 (some "fresh"),
    bootstrapWrite := .ok, metaWrite := .failed none }

/-- The network is up and serves the document `fresh`, and the write of the
bootstrap file fails after truncating the file. -/
def truncatingEnv : Env :=
  { now := 1, fetchTime := 1, mkdirOk := true, fetch := .response 200 (some "fresh"),
    bootstrapWrite := .failed (some ""), metaWrite := .ok }

/-- A cache directory holding the document `stale` and no metadata. -/
def staleDisk : Disk := { bootstrapFile := some "stale", metaFile := none }

/-- The disk holding the registry `registryLaterURL` with fresh metadata. -/
def laterURLDisk : Disk := { bootstrapFile := some "later-url", metaFile := some "meta" }

/-- An RDAP response with one `registration` and one `expiration` event. -/
def sampleResponse : RDAPResponse :=
  { ObjectClassName := "domain"
    LDHName := "example.com"
    Events := [{ EventAction := "registration", EventDate := "1995-08-14T04:00:00Z" },
               { EventAction := "expiration", EventDate := "2026-08-13T04:00:00Z" }] }

/-- An RDAP codec that knows one response body. -/
def sampleRDAPCodec : RDAPCodec :=
  { decodeResponse := fun s => if s = "registered" then some sampleResponse else none
    parseJSON := fun _ => none }

/-- A WHOIS codec that knows one response body. -/
def sampleWhoisCodec : WhoisCodec :=
  { queryEscape := fun s => s
    decodeResponse := fun s =>
      if s = "registered" then
        some { ParsedData := some { DomainName := "example.com", Registrar := "Example Registrar" },
               RawData := "Domain Name: EXAMPLE.COM" }
      else none
    decodeErrorField := fun _ => "" }

/-- Every server answers 404 with an HTML body. -/
def http404 : String → HttpOutcome := fun _ => .response 404 (some "<html>not found</html>")

/-- Every server answers 200 with the body `registered`. -/
def http200 : String → HttpOutcome := fun _ => .response 200 (some "registered")

/-- An RDAP client whose request times out. -/
def rdapTimeout : String → Except RDAPError LookupResult := fun _ => .error .requestFailed

/-- The zero `time.Time` (January 1, year 1, 00:00 UTC) in nanoseconds
relative to the Unix epoch; the instant a metadata file without a
`lastUpdated` field decodes to. -/
def zeroTime : Int := -62135596800 * 1000000000

/-- The instant 2026-11-04 00:00 UTC in nanoseconds since the Unix epoch. -/
def sampleNow : Int := 1793750400 * 1000000000

/-- A codec whose metadata document `empty` decodes to the zero value. -/
def zeroMetaCodec : CacheCodec :=
  { decodeBootstrap := fun _ => none
    decodeMeta := fun s => if s = "empty" then some { LastUpdated := zeroTime } else none
    encodeMeta := fun _ => none }

/-- A cache directory whose metadata file is the document `empty`. -/
def zeroMetaDisk : Disk := { bootstrapFile := none, metaFile := some "empty" }

/-- The cache of the user `root`. -/
def sampleCache : Cache := { cacheDir := "/root/.domaindetails" }

/-- A vCard as RDAP servers send it: `["vcard", [[version], [fn], ...]]`. -/
def sampleVCard : JSON :=
  .arr [.str "vcard",
        .arr [.arr [.str "version", .obj [], .str "text", .str "4.0"],
              .arr [.str "fn", .obj [], .str "text", .str "Example Registrar, Inc."]]]

/-- An RDAP codec that parses the raw message `vcard` to `sampleVCard` and
the raw message `object` to a JSON object. -/
def vcardCodec : RDAPCodec :=
  { decodeResponse := fun _ => none
    parseJSON := fun s =>
      if s = "vcard" then some sampleVCard
      else if s = "object" then some (.obj [])
      else none }

/-- Two strings that differ at most in the case of their letters. -/
def sameUpToCase (a b : String) : Bool :=
  a.toList.map Char.toLower = b.toList.map Char.toLower

/-- The label list of a service entry: its first component. -/
def labelsOf (service : List (List String)) : List String :=
  match service with
  | tlds :: _ => tlds
  | [] => []

/-- The total the metadata records: the sum, over all service entries, of
the size of the entry's label list. -/
def tldTotal (services : List (List (List String))) : Nat :=
  (services.map (fun s => (labelsOf s).length)).sum

/-- The network is up and serves a body that is not a bootstrap document. -/
def garbageEnv : Env :=
  { now := 1, fetchTime := 1, mkdirOk := true, fetch := .response 200 (some "<html>"),
    bootstrapWrite := .ok, metaWrite := .ok }

/-- The network is up and serves the document `fresh`; both writes succeed;
the clock reads `t` when the metadata is stamped. -/
def onlineEnv (t : Int) : Env :=
  { now := t, fetchTime := t, mkdirOk := true, fetch := .response 200 (some "fresh"),
    bootstrapWrite := .ok, metaWrite := .ok }

/-- A character allowed inside a label: `a`-`z`, `0`-`9` or `-`. -/
def labelChar (c : Char) : Bool :=
  decide (('a' ≤ c ∧ c ≤ 'z') ∨ ('0' ≤ c ∧ c ≤ '9') ∨ c = '-')

/-- A character allowed in a domain: a label character or `.`. -/
def domainChar (c : Char) : Bool :=
  labelChar c || decide (c = '.')

/-! ## internal/output/printer.go and the JSON shape of internal/types/types.go -/

/-- Go `output.Printer`. -/
structure Printer where
  jsonOutput : Bool
  rawOutput : Bool
  deriving DecidableEq, Repr

/-- Go `output.NewPrinter`. -/
def NewPrinter (jsonOutput rawOutput : Bool) : Printer :=
  { jsonOutput := jsonOutput, rawOutput := rawOutput }

/-- An object member for a string field tagged `omitempty`: left out when
the string is empty. -/
def strField (key value : String) : List (String × JSON) :=
  if value = "" then [] else [(key, .str value)]

/-- An object member for a `[]string` field tagged `omitempty`: left out when
the slice has length zero. -/
def listField (key : String) (values : List String) : List (String × JSON) :=
  if values.length = 0 then [] else [(key, .arr (values.map JSON.str))]

/-- The JSON value `encoding/json` builds for a `types.ParsedData`, by the
struct tags of `types.go` (every field `omitempty`, in declaration order). -/
def marshalParsedData (p : ParsedData) : JSON :=
  .obj (strField "domainName" p.DomainName ++
        strField "registrar" p.Registrar ++
        strField "registrant" p.Registrant ++
        strField "creationDate" p.CreationDate ++
        strField "expirationDate" p.ExpirationDate ++
        strField "lastModified" p.LastModified ++
        listField "nameservers" p.Nameservers ++
        listField "status" p.Status ++
        strField "dnssec" p.DNSSEC ++
        strField "whoisServer" p.WhoisServer)

/-- The JSON value `encoding/json` builds for a `types.LookupResult`, by the
struct tags of `types.go`: `domain`, `available` and `method` always,
`message`, `parsed` and `raw` only when not empty (`parsed`: when not nil). -/
def marshalLookupResult (r : LookupResult) : JSON :=
  .obj ([("domain", .str r.Domain), ("available", .bool r.Available), ("method", .str r.Method)] ++
        strField "message" r.Message ++
        (match r.Parsed with
         | none => []
         | some p => [("parsed", marshalParsedData p)]) ++
        strField "raw" r.Raw)

/-- The member of an object for a key; the last occurrence counts, as the
decoder assigns the members in order. -/
def lookupKey (key : String) : List (String × JSON) → Option JSON
  | [] => none
  | (k, v) :: rest =>
    match lookupKey key rest with
    | some w => some w
    | none => if k = key then some v else none

/-- Decoding a member into a Go `string` field: an absent member or `null`
leaves the zero value, a string is stored, anything else is a type error. -/
def decodeString : Option JSON → Option String
  | none => some ""
  | some .null => some ""
  | some (.str s) => some s
  | some _ => none

/-- Decoding a member into a Go `bool` field. -/
def decodeBool : Option JSON → Option Bool
  | none => some false
  | some .null => some false
  | some (.bool b) => some b
  | some _ => none

/-- Decoding the elements of an array into a `[]string`. -/
def decodeElements : List JSON → Option (List String)
  | [] => some []
  | x :: xs =>
    match decodeString (some x), decodeElements xs with
    | some s, some rest => some (s :: rest)
    | _, _ => none

/-- Decoding a member into a Go `[]string` field. -/
def decodeStrings : Option JSON → Option (List String)
  | none => some []
  | some .null => some []
  | some (.arr xs) => decodeElements xs
  | some _ => none

/-- What `json.Unmarshal` stores in a zero `types.ParsedData` from a JSON
value with the keys of the struct tags; `none` is an error. -/
def unmarshalParsedData : JSON → Option ParsedData
  | .obj kvs =>
    match decodeString (lookupKey "domainName" kvs), decodeString (lookupKey "registrar" kvs),
      decodeString (lookupKey "registrant" kvs), decodeString (lookupKey "creationDate" kvs),
      decodeString (lookupKey "expirationDate" kvs), decodeString (lookupKey "lastModified" kvs),
      decodeStrings (lookupKey "nameservers" kvs), decodeStrings (lookupKey "status" kvs),
      decodeString (lookupKey "dnssec" kvs), decodeString (lookupKey "whoisServer" kvs) with
    | some domainName, some registrar, some registrant, some creationDate, some expirationDate,
      some lastModified, some nameservers, some status, some dnssec, some whoisServer =>
      some { DomainName := domainName, Registrar := registrar, Registrant := registrant,
             CreationDate := creationDate, ExpirationDate := expirationDate,
             LastModified := lastModified, Nameservers := nameservers, Status := status,
             DNSSEC := dnssec, WhoisServer := whoisServer }
    | _, _, _, _, _, _, _, _, _, _ => none
  | _ => none

/-- Decoding the member `parsed` into the pointer field `Parsed`: absent or
`null` leaves nil, any other value is decoded into a fresh `ParsedData`. -/
def decodeParsed : Option JSON → Option (Option ParsedData)
  | none => some none
  | some .null => some none
  | some v =>
    match unmarshalParsedData v with
    | some p => some (some p)
    | none => none

/-- What `json.Unmarshal` stores in a zero `types.LookupResult` from a JSON
value with the keys of the struct tags; `none` is an error. -/
def unmarshalLookupResult : JSON → Option LookupResult
  | .obj kvs =>
    match decodeString (lookupKey "domain" kvs), decodeBool (lookupKey "available" kvs),
      decodeString (lookupKey "method" kvs), decodeString (lookupKey "message" kvs),
      decodeParsed (lookupKey "parsed" kvs), decodeString (lookupKey "raw" kvs) with
    | some domain, some available, some method, some message, some parsed, some raw =>
      some { Domain := domain, Available := available, Method := method, Message := message,
             Parsed := parsed, Raw := raw }
    | _, _, _, _, _, _ => none
  | _ => none

/-- The error return of `printJSON`: "failed to marshal JSON: %v". -/
inductive PrintError where
  | marshal : PrintError
  deriving DecidableEq, Repr

/-- The value `output` that `printJSON` hands to `json.MarshalIndent`: the
result itself when raw output is requested, else a copy without `Raw`. -/
def printedResult (p : Printer) (result : LookupResult) : LookupResult :=
  if !p.rawOutput then
    { Domain := result.Domain
      Available := result.Available
      Method := result.Method
      Message := result.Message
      Parsed := result.Parsed }
  else result

/-- Go `(*Printer).printJSON`: the line it prints, or its error. `indent`
is the text layer of `json.MarshalIndent(·, "", "  ")` on the JSON value of
the struct (`none` is an error). -/
def printJSON (indent : JSON → Option String) (p : Printer) (result : LookupResult) :
    Except PrintError String :=
  match indent (marshalLookupResult (printedResult p result)) with
  | none => .error .marshal
  | some data => .ok data

/-- A result as the WHOIS path produces it, with raw data. -/
def sampleResult : LookupResult :=
  { Domain := "example.com", Available := false, Method := "whois",
    Parsed := some { DomainName := "example.com", Registrar := "Example Registrar",
                     Nameservers := ["a.iana-servers.net", "b.iana-servers.net"] },
    Raw := "Domain Name: EXAMPLE.COM" }

/-- The members of a JSON object (none for any other value). -/
def members : JSON → List (String × JSON)
  | .obj kvs => kvs
  | _ => []

/-! # Theorems -/

/-! ## The registry scan -/

theorem scanTLDs_eq (tld : String) (urls tlds : List String) :
    scanTLDs tld urls tlds = if tlds.contains tld && !urls.isEmpty then urls.head? else none := by
  induction tlds with
  | nil => simp [scanTLDs]
  | cons t rest ih =>
    cases urls with
    | nil => simp [scanTLDs, ih]
    | cons u us =>
      by_cases h : t = tld
      · simp [scanTLDs, h]
      · have h2 : ¬ tld = t := fun e => h e.symm
        simp [scanTLDs, h, h2, ih]

theorem firstURL_of_answers (tld : String) (tlds urls : List String)
    (more : List (List String)) (h : answersTLD tld (tlds :: urls :: more) = true) :
    firstURL (tlds :: urls :: more) = urls.head? := by
  cases urls with
  | nil => simp [answersTLD] at h
  | cons u us => simp [firstURL]

theorem scanServices_eq (tld : String) (services : List (List (List String))) :
    scanServices tld services = linearScan (answersTLD tld) services := by
  induction services with
  | nil => simp [scanServices, linearScan]
  | cons service rest ih =>
    match service with
    | [] => simpa [scanServices, linearScan, answersTLD] using ih
    | [_] => simpa [scanServices, linearScan, answersTLD] using ih
    | tlds :: urls :: more =>
      by_cases h : answersTLD tld (tlds :: urls :: more) = true
      · have h1 := firstURL_of_answers tld tlds urls more h
        have h2 : (tlds.contains tld && !urls.isEmpty) = true := by simpa [answersTLD] using h
        cases urls with
        | nil => simp at h2
        | cons u us =>
          have h4 : tld ∈ tlds := by simpa using h2
          simp [scanServices, linearScan, List.find?, h, scanTLDs_eq, h4, firstURL]
      · have h2 : (tlds.contains tld && !urls.isEmpty) = false := by
          simpa [answersTLD] using h
        have h3 : answersTLD tld (tlds :: urls :: more) = false := by simpa using h
        simp only [scanServices, linearScan, List.find?, h3, scanTLDs_eq, h2]
        simpa [linearScan] using ih

theorem linearScan_answers_none (tld : String) (services : List (List (List String))) :
    linearScan (answersTLD tld) services = none ↔
      ∀ s ∈ services, answersTLD tld s = false := by
  induction services with
  | nil => simp [linearScan]
  | cons service rest ih =>
    by_cases h : answersTLD tld service = true
    · match service, h with
      | tlds :: (u :: us) :: more, h => simp [linearScan, List.find?, h, firstURL]
      | [], h => simp [answersTLD] at h
      | [_], h => simp [answersTLD] at h
      | tlds :: [] :: more, h => simp [answersTLD] at h
    · have h3 : answersTLD tld service = false := by simpa using h
      simp only [linearScan, List.find?, h3, List.mem_cons, forall_eq_or_imp, true_and]
      simpa [linearScan] using ih

theorem answers_eq_lists_of_wellFormed (tld : String) (services : List (List (List String)))
    (h : ∀ s ∈ services, wellFormedEntry s = true) :
    linearScan (answersTLD tld) services = linearScan (listsTLD tld) services := by
  induction services with
  | nil => rfl
  | cons service rest ih =>
    have hrest : ∀ s ∈ rest, wellFormedEntry s = true :=
      fun s hs => h s (List.mem_cons_of_mem _ hs)
    have hs := h service (List.mem_cons_self _ _)
    match service, hs with
    | tlds :: (u :: us) :: more, _ =>
      by_cases hc : tld ∈ tlds
      · simp [linearScan, List.find?, answersTLD, listsTLD, hc]
      · have := ih hrest
        simp only [linearScan] at this
        simp [linearScan, List.find?, answersTLD, listsTLD, hc, this]
    | [], hs => simp [wellFormedEntry] at hs
    | [_], hs => simp [wellFormedEntry] at hs
    | tlds :: [] :: more, hs => simp [wellFormedEntry] at hs

theorem GetRDAPServer_of_bootstrap (j : CacheCodec) (env : Env) (d : Disk)
    (tld : String) (b : IANABootstrap) (hb : (getBootstrap j env d).1 = .ok b) :
    (GetRDAPServer j env d tld).1 =
      (match linearScan (answersTLD tld) b.Services with
       | some u => .ok u
       | none => .error (.noServer tld)) := by
  unfold GetRDAPServer
  rcases hg : getBootstrap j env d with ⟨r, d1⟩
  rw [hg] at hb
  simp only at hb
  subst hb
  simp only [scanServices_eq]
  cases linearScan (answersTLD tld) b.Services <;> rfl

/-- C1 (as stated, refuted): the registry `registryNoURL` has an entry that
lists `com`, yet `GetRDAPServer "com"` fails with the not-found error; and in
`registryLaterURL` the first entry listing `com` is `[["com"], []]`, which
has no URL, while `GetRDAPServer "com"` returns the URL of the second
entry. -/
theorem GetRDAPServer_listed_but_not_found :
    (∃ s ∈ registryNoURL.Services, listsTLD "com" s = true) ∧
    (GetRDAPServer sampleCodec offlineEnv
        { bootstrapFile := some "no-url", metaFile := some "meta" } "com").1
      = .error (.noServer "com") ∧
    registryLaterURL.Services.find? (listsTLD "com") = some [["com"], []] ∧
    (GetRDAPServer sampleCodec offlineEnv
        { bootstrapFile := some "later-url", metaFile := some "meta" } "com").1
      = .ok "https://rdap.example/" := by
  refine ⟨⟨[["com"], []], by decide, by decide⟩, by decide, by decide, by decide⟩

/-- C1 (amended): when `getBootstrap` yields the registry `b`,
`GetRDAPServer tld` returns the first candidate URL of the first service
entry that has a label list containing `tld` and a non-empty URL list (the
value of a direct linear scan for that entry); it fails with the not-found
error exactly when no entry is of that kind; and on a registry whose entries
all have a label list and at least one URL that scan is the scan for the
first entry whose label list contains `tld`. -/
theorem GetRDAPServer_first_answering_entry (j : CacheCodec) (env : Env) (d : Disk)
    (tld : String) (b : IANABootstrap) (hb : (getBootstrap j env d).1 = .ok b) :
    (GetRDAPServer j env d tld).1 =
        (match linearScan (answersTLD tld) b.Services with
         | some u => .ok u
         | none => .error (.noServer tld)) ∧
    ((GetRDAPServer j env d tld).1 = .error (.noServer tld) ↔
        ∀ s ∈ b.Services, answersTLD tld s = false) ∧
    ((∀ s ∈ b.Services, wellFormedEntry s = true) →
        linearScan (answersTLD tld) b.Services = linearScan (listsTLD tld) b.Services) := by
  have key := GetRDAPServer_of_bootstrap j env d tld b hb
  refine ⟨key, ?_, answers_eq_lists_of_wellFormed tld b.Services⟩
  rw [key, ← linearScan_answers_none]
  cases linearScan (answersTLD tld) b.Services <;> simp

/-- C1 witness: the amended statement at the registry `registryLaterURL`. -/
theorem GetRDAPServer_first_answering_entry_witness :
    (getBootstrap sampleCodec offlineEnv
        { bootstrapFile := some "later-url", metaFile := some "meta" }).1
      = .ok registryLaterURL ∧
    (GetRDAPServer sampleCodec offlineEnv
        { bootstrapFile := some "later-url", metaFile := some "meta" } "net").1
      = (match linearScan (answersTLD "net") registryLaterURL.Services with
         | some u => .ok u
         | none => .error (.noServer "net")) :=
  ⟨by decide,
   (GetRDAPServer_first_answering_entry sampleCodec offlineEnv
      { bootstrapFile := some "later-url", metaFile := some "meta" } "net"
      registryLaterURL (by decide)).1⟩

/-! ## The stale fallback of `getBootstrap` -/

theorem readValid_some (j : CacheCodec) (env : Env) (d : Disk) (data : IANABootstrap)
    (h : readValid j env d = some data) : readBootstrap j d = .ok data := by
  unfold readValid at h
  split at h
  · exact absurd h (by simp)
  · split at h
    · split at h
      · next heq => rw [heq]; simp at h; rw [h]
      · exact absurd h (by simp)
    · exact absurd h (by simp)

theorem Update_early_error_keeps_disk (j : CacheCodec) (env : Env) (d : Disk)
    (err : UpdateError) (h : (Update j env d).1 = .error err)
    (hw : err ≠ .writeBootstrap ∧ err ≠ .marshalMeta ∧ err ≠ .writeMeta) :
    (Update j env d).2 = d := by
  unfold Update at h ⊢
  repeat' split
  all_goals first
    | rfl
    | (exfalso; simp_all; done)
    | (exfalso; simp_all; split at h <;> simp_all)

/-- C2 (as stated, refuted): the cache state `staleDisk` holds a snapshot
that decodes and resolves `com`. When the refresh fails at the write of the
metadata (after replacing the bootstrap file), `getBootstrap` returns the
new snapshot, not the stale one, and `GetRDAPServer "com"` fails; when the
refresh fails at the write of the bootstrap file and leaves it truncated,
`getBootstrap` returns an error. -/
theorem getBootstrap_stale_snapshot_lost :
    readBootstrap sampleCodec staleDisk = .ok registryStale ∧
    linearScan (answersTLD "com") registryStale.Services = some "https://rdap.stale.example/" ∧
    (Update sampleCodec metaWriteFailsEnv staleDisk).1 = .error .writeMeta ∧
    (getBootstrap sampleCodec metaWriteFailsEnv staleDisk).1 = .ok registryFresh ∧
    (GetRDAPServer sampleCodec metaWriteFailsEnv staleDisk "com").1 = .error (.noServer "com") ∧
    (Update sampleCodec truncatingEnv staleDisk).1 = .error .writeBootstrap ∧
    (getBootstrap sampleCodec truncatingEnv staleDisk).1
      = .error (.fetchFailed .writeBootstrap) := by
  refine ⟨by decide, by decide, by decide, by decide, by decide, by decide, by decide⟩

/-- C2 (amended): in every cache state in which `Update` fails while a
persisted snapshot exists and decodes to `b`, and in which a failure at or
after the write of the bootstrap file (the errors `writeBootstrap`,
`marshalMeta`, `writeMeta`) leaves a bootstrap file that still decodes to
`b`, `getBootstrap` returns `b` instead of an error, whatever the age of the
snapshot and whether or not metadata exists, and `GetRDAPServer tld`
succeeds for every `tld` that `b` resolves. A failure before the first write
(directory, fetch, status, body, decoding) needs no further condition. -/
theorem getBootstrap_stale_fallback (j : CacheCodec) (env : Env) (d : Disk)
    (err : UpdateError) (b : IANABootstrap)
    (hfail : (Update j env d).1 = .error err)
    (hpre : readBootstrap j d = .ok b)
    (hpost : (err = .writeBootstrap ∨ err = .marshalMeta ∨ err = .writeMeta) →
      readBootstrap j (Update j env d).2 = .ok b) :
    (getBootstrap j env d).1 = .ok b ∧
    ∀ tld u, linearScan (answersTLD tld) b.Services = some u →
      (GetRDAPServer j env d tld).1 = .ok u := by
  have hafter : readBootstrap j (Update j env d).2 = .ok b := by
    by_cases hw : err = .writeBootstrap ∨ err = .marshalMeta ∨ err = .writeMeta
    · exact hpost hw
    · rw [Update_early_error_keeps_disk j env d err hfail (by tauto)]
      exact hpre
  have key : (getBootstrap j env d).1 = .ok b := by
    unfold getBootstrap
    cases hv : readValid j env d with
    | some data =>
      have := readValid_some j env d data hv
      rw [hpre] at this
      simp only [Except.ok.injEq] at this
      simp [this]
    | none =>
      rcases hu : Update j env d with ⟨r, d1⟩
      rw [hu] at hfail hafter
      simp only at hfail hafter
      subst hfail
      simp [hafter]
  refine ⟨key, fun tld u hu => ?_⟩
  rw [GetRDAPServer_of_bootstrap j env d tld b key, hu]

/-- C2 witness: with the network down, the stale snapshot is served and
resolves `net`. -/
theorem getBootstrap_stale_fallback_witness :
    (Update sampleCodec offlineEnv staleDisk).1 = .error .fetch ∧
    readBootstrap sampleCodec staleDisk = .ok registryStale ∧
    (getBootstrap sampleCodec offlineEnv staleDisk).1 = .ok registryStale ∧
    (GetRDAPServer sampleCodec offlineEnv staleDisk "net").1
      = .ok "https://rdap.stale.example/" :=
  ⟨by decide, by decide,
   (getBootstrap_stale_fallback sampleCodec offlineEnv staleDisk .fetch registryStale
      (by decide) (by decide) (by decide)).1,
   (getBootstrap_stale_fallback sampleCodec offlineEnv staleDisk .fetch registryStale
      (by decide) (by decide) (by decide)).2 "net" "https://rdap.stale.example/" (by decide)⟩

/-! ## The effective TLD -/

theorem splitChars_ne_nil (sep : Char) (cs : List Char) : splitChars sep cs ≠ [] := by
  cases cs with
  | nil => simp [splitChars]
  | cons c cs =>
    unfold splitChars
    split
    · simp
    · split <;> simp

theorem splitChars_intercalate (sep : Char) (cs : List Char) :
    [sep].intercalate (splitChars sep cs) = cs := by
  induction cs with
  | nil => simp [splitChars, List.intercalate]
  | cons c cs ih =>
    unfold splitChars
    by_cases h : c = sep
    · simp only [h, if_true]
      cases hs : splitChars sep cs with
      | nil => exact absurd hs (splitChars_ne_nil sep cs)
      | cons part parts =>
        rw [hs] at ih
        simp only [List.intercalate, List.intersperse, List.flatten] at ih ⊢
        simp [ih]
    · simp only [h, if_false]
      cases hs : splitChars sep cs with
      | nil => exact absurd hs (splitChars_ne_nil sep cs)
      | cons part parts =>
        rw [hs] at ih
        cases parts with
        | nil =>
          simp only [List.intercalate, List.intersperse, List.flatten] at ih ⊢
          simp at ih ⊢
          exact ih
        | cons q qs =>
          simp only [List.intercalate, List.intersperse, List.flatten] at ih ⊢
          simp at ih ⊢
          exact ih

theorem splitChars_no_sep (sep : Char) (cs : List Char) :
    ∀ part ∈ splitChars sep cs, sep ∉ part := by
  induction cs with
  | nil => simp [splitChars]
  | cons c cs ih =>
    unfold splitChars
    by_cases h : c = sep
    · simp only [h, if_true]
      intro part hp
      rcases List.mem_cons.mp hp with rfl | hp
      · simp
      · exact ih part hp
    · simp only [h, if_false]
      cases hs : splitChars sep cs with
      | nil => exact absurd hs (splitChars_ne_nil sep cs)
      | cons q qs =>
        rw [hs] at ih
        intro part hp
        rcases List.mem_cons.mp hp with rfl | hp
        · intro hmem
          rcases List.mem_cons.mp hmem with heq | hmem
          · exact h heq.symm
          · exact ih q (List.mem_cons_self _ _) hmem
        · exact ih part (List.mem_cons_of_mem _ hp)

theorem exists_last_two (parts : List String) (h : 2 ≤ parts.length) :
    ∃ init a b, parts = init ++ [a, b] := by
  induction parts with
  | nil => simp at h
  | cons x xs ih =>
    match xs, h, ih with
    | [], h, _ => simp at h
    | [y], _, _ => exact ⟨[], x, y, rfl⟩
    | y :: z :: zs, _, ih =>
      obtain ⟨init, a, b, hab⟩ := ih (by simp)
      exact ⟨x :: init, a, b, by rw [hab]; rfl⟩

theorem getD_last (l : List String) (a b d : String) :
    (l ++ [a, b]).getD ((l ++ [a, b]).length - 1) d = b := by
  have h : (l ++ [a, b]).length - 1 = l.length + 1 := by simp
  rw [h, List.getD_eq_getElem?_getD, List.getElem?_append_right (by omega)]
  simp

theorem getD_before_last (l : List String) (a b d : String) :
    (l ++ [a, b]).getD ((l ++ [a, b]).length - 2) d = a := by
  have h : (l ++ [a, b]).length - 2 = l.length := by simp
  rw [h, List.getD_eq_getElem?_getD, List.getElem?_append_right (by omega)]
  simp

theorem lastTwoJoined_append (l : List String) (a b : String) :
    lastTwoJoined (l ++ [a, b]) = a ++ "." ++ b := by
  have h : (l ++ [a, b]).length - 2 = l.length := by simp
  unfold lastTwoJoined
  rw [h, List.drop_left]
  simp [String.intercalate, String.intercalate.go]

theorem lastLabel_append (l : List String) (a b : String) :
    lastLabel (l ++ [a, b]) = b := by
  have : l ++ [a, b] = (l ++ [a]) ++ [b] := by simp
  unfold lastLabel
  rw [this, List.getLast?_append]
  simp

/-- C3 (as stated, refuted): the domain `co.uk` splits into the two labels
`co` and `uk`, which form the compound suffix `co.uk`, yet `extractTLD`
returns `uk`; and the domain `localhost`, whose single last label is
`localhost`, yields the empty string. -/
theorem extractTLD_two_labels_not_compound :
    splitDot "co.uk" = ["co", "uk"] ∧ "co.uk" ∈ rdap.secondLevel ∧
    rdap.extractTLD "co.uk" = "uk" ∧
    splitDot "localhost" = ["localhost"] ∧ rdap.extractTLD "localhost" = "" := by
  refine ⟨by decide, by decide, by decide, by decide, by decide⟩

/-- C3 (amended): `extractTLD` splits the domain on `.` (the labels joined
by `.` give the domain back and no label contains `.`); with fewer than two
labels it returns the empty string; with three or more labels whose last two,
joined by `.`, are one of the twelve hard-coded compound suffixes it returns
that two-label suffix; otherwise it returns the single last label (so always
with exactly two labels); and `extractTLD "sub.co.uk" = "co.uk"`. -/
theorem extractTLD_effective_tld (domain : String) :
    (['.'].intercalate (splitChars '.' domain.toList) = domain.toList ∧
      (splitDot domain).map String.toList = splitChars '.' domain.toList ∧
      ∀ label ∈ splitDot domain, '.' ∉ label.toList) ∧
    rdap.extractTLD domain =
      (if (splitDot domain).length < 2 then ""
       else if 3 ≤ (splitDot domain).length ∧ lastTwoJoined (splitDot domain) ∈ rdap.secondLevel
         then lastTwoJoined (splitDot domain)
       else lastLabel (splitDot domain)) ∧
    rdap.secondLevel =
      ["co.uk", "org.uk", "me.uk", "com.au", "net.au", "org.au",
       "co.nz", "net.nz", "org.nz", "co.za", "co.in", "com.br"] ∧
    rdap.extractTLD "sub.co.uk" = "co.uk" := by
  refine ⟨⟨splitChars_intercalate '.' _, ?_, ?_⟩, ?_, rfl, by decide⟩
  · simp [splitDot, Function.comp_def]
  · intro label hl
    simp only [splitDot, List.mem_map] at hl
    obtain ⟨part, hp, rfl⟩ := hl
    exact splitChars_no_sep '.' _ part hp
  · unfold rdap.extractTLD
    generalize splitDot domain = parts
    by_cases h2 : parts.length < 2
    · simp [h2]
    · obtain ⟨init, a, b, rfl⟩ := exists_last_two parts (by omega)
      simp only [h2, if_false, getD_last, getD_before_last, lastTwoJoined_append,
        lastLabel_append, ge_iff_le]
      by_cases h3 : 3 ≤ (init ++ [a, b]).length
      · simp only [h3, if_true, true_and]
        by_cases hm : a ++ "." ++ b ∈ rdap.secondLevel <;> simp [hm]
      · simp only [h3, if_false, false_and]

/-! ## 404 means available -/

/-- C4: when the RDAP server resolved for the domain answers the query with
status 404 and any body, `rdap.Lookup` returns successfully the result with
`Available = true`, method `rdap` and no parsed record; and when the WHOIS
API answers with status 404 and any body, `whois.Lookup` returns
successfully the result with `Available = true`, method `whois` and no
parsed record. -/
theorem lookup_404_is_available (cj : CacheCodec) (j : RDAPCodec) (wj : WhoisCodec)
    (env : Env) (d : Disk) (c : whois.Client) (http httpW : String → HttpOutcome)
    (domain serverURL body bodyW : String) :
    ((GetRDAPServer cj env d (rdap.extractTLD domain)).1 = .ok serverURL →
      http (serverURL ++ "domain/" ++ domain) = .response 404 (some body) →
      (rdap.Lookup cj j env http d domain).1 =
        .ok { Domain := domain, Available := true, Method := "rdap",
              Message := "Domain not found in registry", Parsed := none, Raw := "" }) ∧
    (httpW (c.baseURL ++ "/api/whois?domain=" ++ wj.queryEscape domain)
        = .response 404 (some bodyW) →
      whois.Lookup wj c httpW domain =
        .ok { Domain := domain, Available := true, Method := "whois",
              Message := "Domain not found", Parsed := none, Raw := "" }) := by
  constructor
  · intro hserver hrdap
    rcases hg : GetRDAPServer cj env d (rdap.extractTLD domain) with ⟨r, d1⟩
    rw [hg] at hserver
    simp only at hserver
    subst hserver
    simp [rdap.Lookup, hg, hrdap]
  · intro hwhois
    simp [whois.Lookup, hwhois]

/-- C4 witness: `example.com` against servers that answer 404. -/
theorem lookup_404_is_available_witness :
    (rdap.Lookup sampleCodec sampleRDAPCodec offlineEnv http404 laterURLDisk "example.com").1 =
        .ok { Domain := "example.com", Available := true, Method := "rdap",
              Message := "Domain not found in registry", Parsed := none, Raw := "" } ∧
    whois.Lookup sampleWhoisCodec whois.NewClient http404 "example.com" =
        .ok { Domain := "example.com", Available := true, Method := "whois",
              Message := "Domain not found", Parsed := none, Raw := "" } :=
  ⟨(lookup_404_is_available sampleCodec sampleRDAPCodec sampleWhoisCodec offlineEnv laterURLDisk
      whois.NewClient http404 http404 "example.com" "https://rdap.example/"
      "<html>not found</html>" "<html>not found</html>").1 (by decide) (by decide),
   (lookup_404_is_available sampleCodec sampleRDAPCodec sampleWhoisCodec offlineEnv laterURLDisk
      whois.NewClient http404 http404 "example.com" "https://rdap.example/"
      "<html>not found</html>" "<html>not found</html>").2 (by decide)⟩

/-! ## Fallback orchestration -/

theorem whois_Lookup_method (wj : WhoisCodec) (c : whois.Client) (httpW : String → HttpOutcome)
    (domain : String) (r : LookupResult) (h : whois.Lookup wj c httpW domain = .ok r) :
    r.Method = "whois" ∧ r.Domain = domain := by
  unfold whois.Lookup at h
  dsimp only at h
  repeat' split at h
  all_goals first
    | (simp only [Except.ok.injEq] at h; subst h; exact ⟨rfl, rfl⟩)
    | (simp at h)

/-- C5: for a domain that passes validation, whatever the RDAP client and
the WHOIS client answer: if RDAP succeeds, `runLookup` hands over the RDAP
result unchanged and makes no WHOIS call; if RDAP fails and WHOIS succeeds,
it hands over exactly the WHOIS result, whose method is `whois`; if both
fail, it returns the single error `lookupFailed`; WHOIS is called at most
once, and only after an RDAP error. -/
theorem runLookup_rdap_then_whois (normalize : String → String)
    (rdapClient : String → Except RDAPError LookupResult)
    (wj : WhoisCodec) (c : whois.Client) (httpW : String → HttpOutcome) (arg : String)
    (hvalid : isValidDomain (normalize arg) = true) :
    (∀ r, rdapClient (normalize arg) = .ok r →
      runLookup normalize rdapClient (whois.Lookup wj c httpW) arg
        = ([.rdap (normalize arg)], .ok r)) ∧
    (∀ e r, rdapClient (normalize arg) = .error e →
      whois.Lookup wj c httpW (normalize arg) = .ok r →
      runLookup normalize rdapClient (whois.Lookup wj c httpW) arg
        = ([.rdap (normalize arg), .whois (normalize arg)], .ok r) ∧ r.Method = "whois") ∧
    (∀ e e2, rdapClient (normalize arg) = .error e →
      whois.Lookup wj c httpW (normalize arg) = .error e2 →
      runLookup normalize rdapClient (whois.Lookup wj c httpW) arg
        = ([.rdap (normalize arg), .whois (normalize arg)], .error (.lookupFailed e2))) ∧
    (∀ dom, (runLookup normalize rdapClient (whois.Lookup wj c httpW) arg).1.count (.whois dom)
        ≤ 1) ∧
    (∀ dom, Call.whois dom ∈ (runLookup normalize rdapClient (whois.Lookup wj c httpW) arg).1 →
      (∃ e, rdapClient (normalize arg) = .error e) ∧
      (runLookup normalize rdapClient (whois.Lookup wj c httpW) arg).1
        = [.rdap (normalize arg), .whois (normalize arg)]) := by
  refine ⟨?_, ?_, ?_, ?_, ?_⟩
  · intro r hr
    simp [runLookup, hvalid, hr]
  · intro e r he hr
    exact ⟨by simp [runLookup, hvalid, he, hr], (whois_Lookup_method wj c httpW _ r hr).1⟩
  · intro e e2 he he2
    simp [runLookup, hvalid, he, he2]
  · intro dom
    unfold runLookup
    simp only [hvalid]
    cases rdapClient (normalize arg) with
    | ok r => simp [List.count_cons]
    | error e =>
      cases whois.Lookup wj c httpW (normalize arg) <;>
        (simp [List.count_cons]; split <;> simp)
  · intro dom
    unfold runLookup
    simp only [hvalid]
    cases hr : rdapClient (normalize arg) with
    | ok r => simp
    | error e => cases whois.Lookup wj c httpW (normalize arg) <;> simp

/-- C5 witness: an RDAP timeout followed by a WHOIS answer for `example.com`
gives the WHOIS result. -/
theorem runLookup_rdap_then_whois_witness :
    isValidDomain "example.com" = true ∧
    runLookup (fun s => s) rdapTimeout (whois.Lookup sampleWhoisCodec whois.NewClient http200)
        "example.com"
      = ([.rdap "example.com", .whois "example.com"],
         .ok { Domain := "example.com", Available := false, Method := "whois",
               Parsed := some { DomainName := "example.com", Registrar := "Example Registrar" },
               Raw := "Domain Name: EXAMPLE.COM" }) :=
  ⟨by decide,
   ((runLookup_rdap_then_whois (fun s => s) rdapTimeout sampleWhoisCodec whois.NewClient http200
      "example.com" (by decide)).2.1 .requestFailed _ (by decide) (by decide)).1⟩

/-! ## The availability invariant -/

theorem rdap_Lookup_shape (cj : CacheCodec) (j : RDAPCodec) (env : Env)
    (http : String → HttpOutcome) (d : Disk) (domain : String) (r : LookupResult)
    (h : (rdap.Lookup cj j env http d domain).1 = .ok r) :
    (r.Available = true ∧ r.Parsed = none) ∨ (r.Available = false ∧ r.Parsed.isSome = true) := by
  unfold rdap.Lookup at h
  dsimp only at h
  repeat' split at h
  all_goals first
    | (simp only [Except.ok.injEq] at h; subst h; simp [rdap.convertToResult])
    | (simp at h)

theorem whois_Lookup_shape (wj : WhoisCodec) (c : whois.Client) (httpW : String → HttpOutcome)
    (domain : String) (r : LookupResult) (h : whois.Lookup wj c httpW domain = .ok r) :
    (r.Available = true ∧ r.Parsed = none) ∨ (r.Available = false ∧ r.Parsed.isSome = true) := by
  unfold whois.Lookup at h
  dsimp only at h
  repeat' split at h
  all_goals first
    | (simp only [Except.ok.injEq] at h; subst h; simp [whois.convertToResult])
    | (simp at h)

/-- C6: every result that `rdap.Lookup` or `whois.Lookup` returns
successfully has `Available = true` only with `Parsed` absent and
`Available = false` only with `Parsed` present; none has `Available = false`
with `Parsed` absent. -/
theorem lookup_result_invariant (cj : CacheCodec) (j : RDAPCodec) (wj : WhoisCodec)
    (env : Env) (d : Disk) (c : whois.Client) (http httpW : String → HttpOutcome)
    (domain : String) (r : LookupResult)
    (h : (rdap.Lookup cj j env http d domain).1 = .ok r ∨
      whois.Lookup wj c httpW domain = .ok r) :
    (r.Available = true → r.Parsed = none) ∧
    (r.Available = false → r.Parsed.isSome = true) ∧
    ¬ (r.Available = false ∧ r.Parsed = none) := by
  have hshape : (r.Available = true ∧ r.Parsed = none) ∨
      (r.Available = false ∧ r.Parsed.isSome = true) := by
    rcases h with h | h
    · exact rdap_Lookup_shape cj j env http d domain r h
    · exact whois_Lookup_shape wj c httpW domain r h
  rcases hshape with ⟨ha, hp⟩ | ⟨ha, hp⟩
  · simp [ha, hp]
  · refine ⟨by simp [ha], fun _ => hp, ?_⟩
    rintro ⟨_, hn⟩
    simp [hn] at hp

/-- C6 witness: the result of the RDAP lookup of `example.com` against a
server answering 200 is not available and carries a parsed record. -/
theorem lookup_result_invariant_witness :
    (rdap.Lookup sampleCodec sampleRDAPCodec offlineEnv http200 laterURLDisk "example.com").1
      = .ok (rdap.convertToResult sampleRDAPCodec "example.com" sampleResponse "registered") ∧
    ((rdap.convertToResult sampleRDAPCodec "example.com" sampleResponse
        "registered").Available = false →
      (rdap.convertToResult sampleRDAPCodec "example.com" sampleResponse
        "registered").Parsed.isSome = true) :=
  ⟨by rfl,
   (lookup_result_invariant sampleCodec sampleRDAPCodec sampleWhoisCodec offlineEnv laterURLDisk
      whois.NewClient http200 http200 "example.com"
      (rdap.convertToResult sampleRDAPCodec "example.com" sampleResponse "registered")
      (Or.inl (by rfl))).2.1⟩

/-! ## Cache staleness -/

theorem timeSub_lt_TTL (now t : Int) : timeSub now t < CacheTTL ↔ now - t < CacheTTL := by
  unfold timeSub
  have hmax : maxDuration = 9223372036854775807 := by decide
  have hmin : minDuration = -9223372036854775808 := by decide
  have httl : CacheTTL = 86400000000000 := by decide
  rw [hmax, hmin, httl]
  split
  · omega
  · split <;> omega

/-- C7 (as stated, refuted): for the metadata timestamp `zeroTime` and the
clock `sampleNow`, `Info` reports the age `maxDuration`, which is not
`sampleNow - zeroTime`. -/
theorem Info_age_saturates :
    Info zeroMetaCodec sampleCache sampleNow zeroMetaDisk =
      .ok { Path := "/root/.domaindetails", LastUpdated := zeroTime, TLDCount := 0,
            Age := maxDuration, IsValid := false } ∧
    sampleNow - zeroTime ≠ maxDuration := by
  refine ⟨by decide, by decide⟩

/-- C7 (amended): for every metadata timestamp `t` and current time `now`,
`Info` reports the age `now - t` clamped to the range of a `time.Duration`
(so `now - t` itself whenever that fits in 64 bits of nanoseconds) and
`IsValid = (now - t < 24h)` for the exact difference; an age of exactly 24h
is invalid and an age of 24h minus one nanosecond is valid. -/
theorem Info_age_and_validity (j : CacheCodec) (c : Cache) (now : Int) (d : Disk)
    (m : CacheMeta) (hmeta : getMeta j d = .ok m) :
    ∃ info, Info j c now d = .ok info ∧
      info.Age = timeSub now m.LastUpdated ∧
      (minDuration ≤ now - m.LastUpdated ∧ now - m.LastUpdated ≤ maxDuration →
        info.Age = now - m.LastUpdated) ∧
      info.IsValid = decide (now - m.LastUpdated < CacheTTL) ∧
      (now - m.LastUpdated = CacheTTL → info.Age = CacheTTL ∧ info.IsValid = false) ∧
      (now - m.LastUpdated = CacheTTL - 1 → info.Age = CacheTTL - 1 ∧ info.IsValid = true) := by
  have hmax : maxDuration = 9223372036854775807 := by decide
  have hmin : minDuration = -9223372036854775808 := by decide
  have httl : CacheTTL = 86400000000000 := by decide
  have hfit : minDuration ≤ now - m.LastUpdated ∧ now - m.LastUpdated ≤ maxDuration →
      timeSub now m.LastUpdated = now - m.LastUpdated := by
    intro ⟨h1, h2⟩
    unfold timeSub
    rw [if_neg (by omega), if_neg (by omega)]
  refine ⟨{ Path := c.cacheDir, LastUpdated := m.LastUpdated, TLDCount := m.TLDCount,
            Age := timeSince now m.LastUpdated,
            IsValid := decide (timeSince now m.LastUpdated < CacheTTL) },
    by simp only [Info, hmeta], rfl, hfit, ?_, ?_, ?_⟩
  · simp only [timeSince, decide_eq_decide]
    exact timeSub_lt_TTL now m.LastUpdated
  · intro h
    have hA : timeSub now m.LastUpdated = CacheTTL := by
      rw [hfit (by omega), h]
    simp only [timeSince, hA, lt_self_iff_false, decide_False, and_self]
  · intro h
    have hA : timeSub now m.LastUpdated = CacheTTL - 1 := by
      rw [hfit (by omega), h]
    simp only [timeSince, hA, true_and, decide_eq_true_eq]
    omega

/-- C7 witness: metadata stamped at the epoch read exactly 24h later. -/
theorem Info_age_and_validity_witness :
    getMeta sampleCodec laterURLDisk = .ok { LastUpdated := 0, TLDCount := 1 } ∧
    ∃ info, Info sampleCodec sampleCache CacheTTL laterURLDisk = .ok info ∧
      info.Age = timeSub CacheTTL 0 ∧ info.IsValid = decide (CacheTTL - 0 < CacheTTL) :=
  ⟨by decide,
   (Info_age_and_validity sampleCodec sampleCache CacheTTL laterURLDisk
      { LastUpdated := 0, TLDCount := 1 } (by decide)).imp
     (fun _ h => ⟨h.1, h.2.1, h.2.2.2.1⟩)⟩

/-! ## Conversion of an RDAP response -/

theorem foldl_field {α β γ : Type} (f : β → α → β) (g : β → γ)
    (hf : ∀ b a, g (f b a) = g b) (l : List α) (b : β) : g (l.foldl f b) = g b := by
  induction l generalizing b with
  | nil => rfl
  | cons a l ih => rw [List.foldl_cons, ih, hf]

theorem applyRole_dates (j : RDAPCodec) (entity : RDAPEntity) (p : ParsedData) (role : String) :
    (rdap.applyRole j entity p role).CreationDate = p.CreationDate ∧
    (rdap.applyRole j entity p role).ExpirationDate = p.ExpirationDate ∧
    (rdap.applyRole j entity p role).LastModified = p.LastModified ∧
    (rdap.applyRole j entity p role).DNSSEC = p.DNSSEC := by
  unfold rdap.applyRole
  by_cases h1 : role = "registrar" <;> by_cases h2 : role = "registrant" <;> simp [h1, h2]

theorem applyEntity_dates (j : RDAPCodec) (p : ParsedData) (entity : RDAPEntity) :
    (rdap.applyEntity j p entity).CreationDate = p.CreationDate ∧
    (rdap.applyEntity j p entity).ExpirationDate = p.ExpirationDate ∧
    (rdap.applyEntity j p entity).LastModified = p.LastModified ∧
    (rdap.applyEntity j p entity).DNSSEC = p.DNSSEC := by
  unfold rdap.applyEntity
  exact ⟨foldl_field _ (·.CreationDate) (fun b a => (applyRole_dates j entity b a).1) _ _,
    foldl_field _ (·.ExpirationDate) (fun b a => (applyRole_dates j entity b a).2.1) _ _,
    foldl_field _ (·.LastModified) (fun b a => (applyRole_dates j entity b a).2.2.1) _ _,
    foldl_field _ (·.DNSSEC) (fun b a => (applyRole_dates j entity b a).2.2.2) _ _⟩

theorem applySecureDNS_dates (p : ParsedData) (sd : Option RDAPSecureDNS) :
    (rdap.applySecureDNS p sd).CreationDate = p.CreationDate ∧
    (rdap.applySecureDNS p sd).ExpirationDate = p.ExpirationDate ∧
    (rdap.applySecureDNS p sd).LastModified = p.LastModified := by
  unfold rdap.applySecureDNS
  cases sd with
  | none => simp
  | some sd => by_cases h : sd.DelegationSigned = true <;> simp [h]

theorem applyEvent_DNSSEC (p : ParsedData) (e : RDAPEvent) :
    (rdap.applyEvent p e).DNSSEC = p.DNSSEC := by
  unfold rdap.applyEvent
  repeat' split
  all_goals rfl

/-- The three date fields after the event loop, for any starting record. -/
theorem foldl_applyEvent_dates (events : List RDAPEvent) (p : ParsedData) :
    (events.foldl rdap.applyEvent p).CreationDate =
      (match (events.filter (fun e => e.EventAction = "registration")).getLast? with
       | some e => e.EventDate
       | none => p.CreationDate) ∧
    (events.foldl rdap.applyEvent p).ExpirationDate =
      (match (events.filter (fun e => e.EventAction = "expiration")).getLast? with
       | some e => e.EventDate
       | none => p.ExpirationDate) ∧
    (events.foldl rdap.applyEvent p).LastModified =
      (match (events.filter (fun e => e.EventAction = "last changed")).getLast? with
       | some e => e.EventDate
       | none => p.LastModified) := by
  induction events generalizing p with
  | nil => simp
  | cons e es ih =>
    rw [List.foldl_cons]
    obtain ⟨h1, h2, h3⟩ := ih (rdap.applyEvent p e)
    rw [h1, h2, h3]
    have hre : ("registration" : String) ≠ "expiration" := by decide
    have hrl : ("registration" : String) ≠ "last changed" := by decide
    have hel : ("expiration" : String) ≠ "last changed" := by decide
    simp only [List.filter_cons, rdap.applyEvent]
    by_cases a1 : e.EventAction = "registration"
    · have a2 : e.EventAction ≠ "expiration" := by rw [a1]; exact hre
      have a3 : e.EventAction ≠ "last changed" := by rw [a1]; exact hrl
      simp only [a1, a2, a3, decide_True, decide_False, if_true, if_false, hre, hrl,
        Bool.false_eq_true, List.getLast?_cons]
      refine ⟨?_, trivial, trivial⟩
      cases (List.filter (fun e => decide (e.EventAction = "registration")) es).getLast? <;> rfl
    · by_cases a2 : e.EventAction = "expiration"
      · have a3 : e.EventAction ≠ "last changed" := by rw [a2]; exact hel
        simp only [a1, a2, a3, decide_True, decide_False, if_true, if_false, hre.symm, hel,
          Bool.false_eq_true, List.getLast?_cons]
        refine ⟨trivial, ?_, trivial⟩
        cases (List.filter (fun e => decide (e.EventAction = "expiration")) es).getLast? <;> rfl
      · by_cases a3 : e.EventAction = "last changed"
        · simp only [a1, a2, a3, decide_True, decide_False, if_true, if_false, hrl.symm,
            hel.symm, Bool.false_eq_true, List.getLast?_cons]
          refine ⟨trivial, trivial, ?_⟩
          cases (List.filter (fun e => decide (e.EventAction = "last changed")) es).getLast?
            <;> rfl
        · simp only [a1, a2, a3, decide_False, if_false, Bool.false_eq_true]
          exact ⟨trivial, trivial, trivial⟩

theorem foldl_applyEvent_filter (events : List RDAPEvent) (p : ParsedData) :
    (events.filter isDateEvent).foldl rdap.applyEvent p = events.foldl rdap.applyEvent p := by
  induction events generalizing p with
  | nil => rfl
  | cons e es ih =>
    by_cases h : isDateEvent e = true
    · simp only [List.filter_cons, h, if_true, List.foldl_cons, ih]
    · have hp : rdap.applyEvent p e = p := by
        simp only [isDateEvent, Bool.decide_or, Bool.or_eq_true, decide_eq_true_eq,
          not_or] at h
        simp [rdap.applyEvent, h.1, h.2.1, h.2.2]
      simp only [List.filter_cons, h, List.foldl_cons, hp, if_false, Bool.false_eq_true]
      exact ih p

theorem convertParsed_dates (j : RDAPCodec) (resp : RDAPResponse) :
    (rdap.convertParsed j resp).CreationDate = lastEventDate "registration" resp.Events ∧
    (rdap.convertParsed j resp).ExpirationDate = lastEventDate "expiration" resp.Events ∧
    (rdap.convertParsed j resp).LastModified = lastEventDate "last changed" resp.Events := by
  have hns : ∀ (b : ParsedData) (a : RDAPNameserver),
      (rdap.applyNameserver b a).CreationDate = b.CreationDate ∧
      (rdap.applyNameserver b a).ExpirationDate = b.ExpirationDate ∧
      (rdap.applyNameserver b a).LastModified = b.LastModified := fun _ _ => ⟨rfl, rfl, rfl⟩
  obtain ⟨e1, e2, e3⟩ := foldl_applyEvent_dates resp.Events
    { DomainName := resp.LDHName, Status := resp.Status }
  unfold rdap.convertParsed
  refine ⟨?_, ?_, ?_⟩
  · rw [(applySecureDNS_dates _ _).1,
      foldl_field _ (·.CreationDate) (fun b a => (applyEntity_dates j b a).1),
      foldl_field _ (·.CreationDate) (fun b a => (hns b a).1), e1]
    rfl
  · rw [(applySecureDNS_dates _ _).2.1,
      foldl_field _ (·.ExpirationDate) (fun b a => (applyEntity_dates j b a).2.1),
      foldl_field _ (·.ExpirationDate) (fun b a => (hns b a).2.1), e2]
    rfl
  · rw [(applySecureDNS_dates _ _).2.2,
      foldl_field _ (·.LastModified) (fun b a => (applyEntity_dates j b a).2.2.1),
      foldl_field _ (·.LastModified) (fun b a => (hns b a).2.2), e3]
    rfl

/-- C8: for every RDAP response, the record built by `convertToResult` has
`CreationDate`, `ExpirationDate` and `LastModified` equal to the `eventDate`
of the last event whose `eventAction` is `registration`, `expiration` and
`last changed` respectively, empty when no event carries the tag; dropping
the events with any other action changes nothing in the record; and the
result has `Available = false`. A response with one `registration` and one
`expiration` event gets exactly those two dates. -/
theorem convertToResult_event_dates (j : RDAPCodec) (domain : String) (resp : RDAPResponse)
    (raw : String) :
    (∃ parsed, (rdap.convertToResult j domain resp raw).Parsed = some parsed ∧
      parsed.CreationDate = lastEventDate "registration" resp.Events ∧
      parsed.ExpirationDate = lastEventDate "expiration" resp.Events ∧
      parsed.LastModified = lastEventDate "last changed" resp.Events) ∧
    rdap.convertToResult j domain { resp with Events := resp.Events.filter isDateEvent } raw
      = rdap.convertToResult j domain resp raw ∧
    (rdap.convertToResult j domain resp raw).Available = false ∧
    (rdap.convertToResult sampleRDAPCodec "example.com" sampleResponse "registered").Parsed
      = some { DomainName := "example.com"
               CreationDate := "1995-08-14T04:00:00Z"
               ExpirationDate := "2026-08-13T04:00:00Z" } := by
  refine ⟨⟨rdap.convertParsed j resp, rfl, convertParsed_dates j resp⟩, ?_, rfl, by decide⟩
  simp only [rdap.convertToResult, rdap.convertParsed, foldl_applyEvent_filter]

/-! ## Entity names -/

theorem scanFields_eq (fields : List JSON) :
    rdap.scanFields fields = fields.findSome? fnValue := by
  induction fields with
  | nil => rfl
  | cons field rest ih =>
    cases field with
    | arr f =>
      match f with
      | [] => simpa [rdap.scanFields, fnValue] using ih
      | [_] => simpa [rdap.scanFields, fnValue] using ih
      | [_, _] => simpa [rdap.scanFields, fnValue] using ih
      | [_, _, _] => simpa [rdap.scanFields, fnValue] using ih
      | a :: _ :: _ :: d :: _ =>
        cases a with
        | str tag =>
          by_cases ht : tag = "fn"
          · cases d <;> simp [rdap.scanFields, fnValue, ht, ih]
          · cases d <;> simp [rdap.scanFields, fnValue, ht, ih]
        | null => simp [rdap.scanFields, fnValue, ih]
        | bool => simp [rdap.scanFields, fnValue, ih]
        | num => simp [rdap.scanFields, fnValue, ih]
        | arr => simp [rdap.scanFields, fnValue, ih]
        | obj => simp [rdap.scanFields, fnValue, ih]
    | null => simpa [rdap.scanFields, fnValue] using ih
    | bool => simpa [rdap.scanFields, fnValue] using ih
    | num => simpa [rdap.scanFields, fnValue] using ih
    | str => simpa [rdap.scanFields, fnValue] using ih
    | obj => simpa [rdap.scanFields, fnValue] using ih

/-- C9: `extractEntityName` is a total function of the entity. It returns
the handle when the handle is not empty; otherwise, when the raw vCard is
not empty and decodes to an array of at least two elements whose second is
an array, the formatted name of the first field of that array that carries
one (`fnValue`); and the empty string in every other case: no vCard, a
vCard that does not decode to an array, fewer than two elements, a second
element that is not an array, or no field carrying a formatted name. -/
theorem extractEntityName_handle_then_fn (j : RDAPCodec) (entity : RDAPEntity) :
    rdap.extractEntityName j entity =
      (if entity.Handle ≠ "" then entity.Handle
       else
         match (if len entity.VCardArray > 0 then rdap.unmarshalSlice j entity.VCardArray
                else none) with
         | some (_ :: .arr fields :: _) => (fields.findSome? fnValue).getD ""
         | _ => "") ∧
    rdap.extractEntityName vcardCodec (.mk "IANA-292" ["registrar"] "vcard" []) = "IANA-292" ∧
    rdap.extractEntityName vcardCodec (.mk "" ["registrar"] "vcard" [])
      = "Example Registrar, Inc." ∧
    rdap.extractEntityName vcardCodec (.mk "" ["registrar"] "" []) = "" ∧
    rdap.extractEntityName vcardCodec (.mk "" ["registrar"] "object" []) = "" ∧
    rdap.extractEntityName vcardCodec (.mk "" ["registrar"] "not json" []) = "" := by
  refine ⟨?_, by decide, by decide, by decide, by decide, by decide⟩
  unfold rdap.extractEntityName
  by_cases hh : entity.Handle ≠ ""
  · rw [if_pos hh, if_pos hh]
  · rw [if_neg hh, if_neg hh]
    by_cases hl : len entity.VCardArray > 0
    · rw [if_pos hl, if_pos hl]
      cases rdap.unmarshalSlice j entity.VCardArray with
      | none => rfl
      | some vcard =>
        match vcard with
        | [] => simp
        | [_] => simp
        | _ :: second :: _ =>
          cases second with
          | arr fields =>
            simp only [List.length_cons, ge_iff_le, Nat.le_add_left, if_true, List.get?_cons_succ,
              List.get?_cons_zero, scanFields_eq]
            cases fields.findSome? fnValue <;> rfl
          | null => simp
          | bool => simp
          | num => simp
          | str => simp
          | obj => simp
    · rw [if_neg hl, if_neg hl]

/-! ## DNSSEC -/

theorem convertParsed_DNSSEC (j : RDAPCodec) (resp : RDAPResponse) :
    (rdap.convertParsed j resp).DNSSEC =
      (match resp.SecureDNS with
       | none => ""
       | some sd => if sd.DelegationSigned then "signed" else "unsigned") := by
  have hbase : (List.foldl (rdap.applyEntity j)
      (List.foldl rdap.applyNameserver
        (List.foldl rdap.applyEvent { DomainName := resp.LDHName, Status := resp.Status }
          resp.Events) resp.Nameservers) resp.Entities).DNSSEC = "" := by
    have hns : ∀ (b : ParsedData) (a : RDAPNameserver),
        (rdap.applyNameserver b a).DNSSEC = b.DNSSEC := fun _ _ => rfl
    rw [foldl_field (rdap.applyEntity j) (fun p : ParsedData => p.DNSSEC)
        (fun b a => (applyEntity_dates j b a).2.2.2),
      foldl_field rdap.applyNameserver (fun p : ParsedData => p.DNSSEC) hns,
      foldl_field rdap.applyEvent (fun p : ParsedData => p.DNSSEC) applyEvent_DNSSEC]
  unfold rdap.convertParsed rdap.applySecureDNS
  cases resp.SecureDNS with
  | none => exact hbase
  | some sd => by_cases h : sd.DelegationSigned = true <;> simp [h]

/-- C10: for every RDAP response, the record built by `convertToResult` has
DNSSEC `signed` if and only if a secureDNS block is present with
`delegationSigned` true, `unsigned` if and only if the block is present with
the flag false, and the empty string if and only if there is no secureDNS
block. -/
theorem convertToResult_DNSSEC (j : RDAPCodec) (domain : String) (resp : RDAPResponse)
    (raw : String) :
    ∃ parsed, (rdap.convertToResult j domain resp raw).Parsed = some parsed ∧
      (parsed.DNSSEC = "signed" ↔
        ∃ sd, resp.SecureDNS = some sd ∧ sd.DelegationSigned = true) ∧
      (parsed.DNSSEC = "unsigned" ↔
        ∃ sd, resp.SecureDNS = some sd ∧ sd.DelegationSigned = false) ∧
      (parsed.DNSSEC = "" ↔ resp.SecureDNS = none) := by
  refine ⟨rdap.convertParsed j resp, rfl, ?_⟩
  rw [convertParsed_DNSSEC]
  have h1 : ("signed" : String) ≠ "unsigned" := by decide
  have h2 : ("signed" : String) ≠ "" := by decide
  have h3 : ("unsigned" : String) ≠ "" := by decide
  cases resp.SecureDNS with
  | none => simp [h2.symm, h3.symm]
  | some sd =>
    cases hd : sd.DelegationSigned <;> simp [hd, h1, h1.symm, h2, h3]

/-! ## Exact label comparison -/

theorem answersTLD_congr (t1 t2 : String) (service : List (List String))
    (h : ∀ label ∈ labelsOf service, (label = t1 ↔ label = t2)) :
    answersTLD t1 service = answersTLD t2 service := by
  match service with
  | [] => rfl
  | [_] => rfl
  | tlds :: urls :: _ =>
    have hc : tlds.contains t1 = tlds.contains t2 := by
      rw [Bool.eq_iff_iff]
      simp only [List.contains_iff_exists_mem_beq, beq_iff_eq]
      constructor
      · rintro ⟨l, hl, he⟩
        exact ⟨l, hl, ((h l hl).mp he.symm).symm⟩
      · rintro ⟨l, hl, he⟩
        exact ⟨l, hl, ((h l hl).mpr he.symm).symm⟩
    simp only [answersTLD, hc]

theorem linearScan_congr (p q : List (List String) → Bool)
    (services : List (List (List String))) (h : ∀ s ∈ services, p s = q s) :
    linearScan p services = linearScan q services := by
  induction services with
  | nil => rfl
  | cons s rest ih =>
    have hs := h s (List.mem_cons_self _ _)
    have hr := ih (fun x hx => h x (List.mem_cons_of_mem _ hx))
    simp only [linearScan, List.find?, hs] at hr ⊢
    cases q s
    · exact hr
    · rfl

theorem linearScan_some_mem (p : List (List String) → Bool)
    (services : List (List (List String))) (u : String)
    (h : linearScan p services = some u) : ∃ s ∈ services, p s = true := by
  unfold linearScan at h
  cases hf : services.find? p with
  | none => simp [hf] at h
  | some s => exact ⟨s, List.mem_of_find?_eq_some hf, List.find?_some hf⟩

/-- C11 (as stated, refuted): `COM` and `com` differ only in letter case,
yet on a registry that lists `com` the call `GetRDAPServer "com"` returns
the server and `GetRDAPServer "COM"` fails with the not-found error. -/
theorem GetRDAPServer_case_sensitive :
    sameUpToCase "COM" "com" = true ∧
    (GetRDAPServer sampleCodec offlineEnv staleDisk "com").1
      = .ok "https://rdap.stale.example/" ∧
    (GetRDAPServer sampleCodec offlineEnv staleDisk "COM").1 = .error (.noServer "COM") := by
  refine ⟨by decide, by decide, by decide⟩

/-- C11 (amended): `GetRDAPServer` compares its TLD argument with the labels
of the registry exactly as given, without case normalization. When
`getBootstrap` yields the registry `b`, the call succeeds only if some entry
has a label equal to the argument character for character, and two TLD
strings obtain the same server (or both none) whenever every label of the
registry equals the one exactly when it equals the other. -/
theorem GetRDAPServer_exact_label (j : CacheCodec) (env : Env) (d : Disk)
    (tld : String) (b : IANABootstrap) (hb : (getBootstrap j env d).1 = .ok b) :
    (∀ u, (GetRDAPServer j env d tld).1 = .ok u →
      ∃ s ∈ b.Services, ∃ label ∈ labelsOf s, label = tld) ∧
    (∀ tld2, (∀ s ∈ b.Services, ∀ label ∈ labelsOf s, (label = tld ↔ label = tld2)) →
      (GetRDAPServer j env d tld).1.toOption = (GetRDAPServer j env d tld2).1.toOption) := by
  constructor
  · intro u hu
    rw [GetRDAPServer_of_bootstrap j env d tld b hb] at hu
    cases hs : linearScan (answersTLD tld) b.Services with
    | none => simp [hs] at hu
    | some v =>
      obtain ⟨s, hmem, hans⟩ := linearScan_some_mem _ _ v hs
      refine ⟨s, hmem, tld, ?_, rfl⟩
      match s, hans with
      | tlds :: urls :: _, hans =>
        simp only [answersTLD, Bool.and_eq_true, List.contains_iff_exists_mem_beq,
          beq_iff_eq] at hans
        obtain ⟨⟨l, hl, he⟩, _⟩ := hans
        rw [he]
        exact hl
      | [], hans => simp [answersTLD] at hans
      | [_], hans => simp [answersTLD] at hans
  · intro tld2 h
    rw [GetRDAPServer_of_bootstrap j env d tld b hb,
      GetRDAPServer_of_bootstrap j env d tld2 b hb,
      linearScan_congr _ _ b.Services (fun s hs => answersTLD_congr tld tld2 s (h s hs))]
    cases linearScan (answersTLD tld2) b.Services <;> rfl

/-- C11 witness: with the stale registry served, `net` resolves through an
entry that has the label `net`. -/
theorem GetRDAPServer_exact_label_witness :
    (getBootstrap sampleCodec offlineEnv staleDisk).1 = .ok registryStale ∧
    ∃ s ∈ registryStale.Services, ∃ label ∈ labelsOf s, label = "net" :=
  ⟨by decide,
   (GetRDAPServer_exact_label sampleCodec offlineEnv staleDisk "net" registryStale
      (by decide)).1 "https://rdap.stale.example/" (by decide)⟩

/-! ## Outcomes of the WHOIS lookup -/

/-- C12: whatever the WHOIS API answers, `whois.Lookup` returns an error when
the status is neither 200 nor 404, when a status-200 body does not decode,
and when a decoded status-200 body carries a non-empty error field; on a
status-200 body that decodes with an empty error field it succeeds with
method `whois`, `Available = false`, the raw data of the response, and a
parsed record whose ten fields are those of the pre-parsed data, field for
field (the empty record when the response carries no pre-parsed data). -/
theorem whois_Lookup_outcomes (wj : WhoisCodec) (c : whois.Client)
    (httpW : String → HttpOutcome) (domain : String) (status : Nat) (read : Option String)
    (hresp : httpW (c.baseURL ++ "/api/whois?domain=" ++ wj.queryEscape domain)
      = .response status read) :
    (status ≠ 200 → status ≠ 404 → ∃ e, whois.Lookup wj c httpW domain = .error e) ∧
    (∀ body, status = 200 → read = some body → wj.decodeResponse body = none →
      whois.Lookup wj c httpW domain = .error .parse) ∧
    (∀ body resp, status = 200 → read = some body → wj.decodeResponse body = some resp →
      resp.Error ≠ "" → whois.Lookup wj c httpW domain = .error (.apiError resp.Error)) ∧
    (∀ body resp, status = 200 → read = some body → wj.decodeResponse body = some resp →
      resp.Error = "" →
      ∃ parsed, whois.Lookup wj c httpW domain =
          .ok { Domain := domain, Available := false, Method := "whois", Message := "",
                Parsed := some parsed, Raw := resp.RawData } ∧
        (resp.ParsedData = none → parsed = {}) ∧
        (∀ pd, resp.ParsedData = some pd →
          parsed.DomainName = pd.DomainName ∧ parsed.Registrar = pd.Registrar ∧
          parsed.Registrant = pd.Registrant ∧ parsed.CreationDate = pd.CreationDate ∧
          parsed.ExpirationDate = pd.ExpirationDate ∧ parsed.LastModified = pd.LastModified ∧
          parsed.Nameservers = pd.Nameservers ∧ parsed.Status = pd.Status ∧
          parsed.DNSSEC = pd.DNSSEC ∧ parsed.WhoisServer = pd.WhoisServer)) := by
  refine ⟨?_, ?_, ?_, ?_⟩
  · intro h200 h404
    cases read with
    | none => exact ⟨.readResponse, by simp [whois.Lookup, hresp]⟩
    | some body =>
      by_cases he : wj.decodeErrorField body = ""
      · exact ⟨.status status, by simp [whois.Lookup, hresp, h200, h404, he]⟩
      · exact ⟨.apiError (wj.decodeErrorField body),
          by simp [whois.Lookup, hresp, h200, h404, he]⟩
  · intro body h200 hread hdec
    subst h200 hread
    simp [whois.Lookup, hresp, hdec]
  · intro body resp h200 hread hdec herr
    subst h200 hread
    simp [whois.Lookup, hresp, hdec, herr]
  · intro body resp h200 hread hdec herr
    subst h200 hread
    cases hpd : resp.ParsedData with
    | none =>
      exact ⟨{}, by simp [whois.Lookup, hresp, hdec, herr, whois.convertToResult, hpd],
        fun _ => rfl, fun pd h => by simp at h⟩
    | some pd =>
      refine ⟨{ DomainName := pd.DomainName, Registrar := pd.Registrar,
                Registrant := pd.Registrant, CreationDate := pd.CreationDate,
                ExpirationDate := pd.ExpirationDate, LastModified := pd.LastModified,
                Nameservers := pd.Nameservers, Status := pd.Status, DNSSEC := pd.DNSSEC,
                WhoisServer := pd.WhoisServer },
        by simp [whois.Lookup, hresp, hdec, herr, whois.convertToResult, hpd],
        fun h => by simp at h, fun pd2 h => ?_⟩
      simp only [Option.some.injEq] at h
      subst h
      exact ⟨rfl, rfl, rfl, rfl, rfl, rfl, rfl, rfl, rfl, rfl⟩

/-- C12 witness: the API answers 200 with the body `registered`. -/
theorem whois_Lookup_outcomes_witness :
    http200 (whois.NewClient.baseURL ++ "/api/whois?domain=" ++
        sampleWhoisCodec.queryEscape "example.com") = .response 200 (some "registered") ∧
    ∃ parsed, whois.Lookup sampleWhoisCodec whois.NewClient http200 "example.com" =
        .ok { Domain := "example.com", Available := false, Method := "whois", Message := "",
              Parsed := some parsed, Raw := "Domain Name: EXAMPLE.COM" } ∧
      parsed.Registrar = "Example Registrar" :=
  ⟨by decide,
   ((whois_Lookup_outcomes sampleWhoisCodec whois.NewClient http200 "example.com" 200
      (some "registered") (by decide)).2.2.2 "registered"
      { ParsedData := some { DomainName := "example.com", Registrar := "Example Registrar" },
        RawData := "Domain Name: EXAMPLE.COM" }
      rfl rfl (by decide) (by decide)).imp
     (fun _ h => ⟨h.1, (h.2.2 _ rfl).2.1⟩)⟩

/-! ## Refresh: failure to parse, and the metadata written -/

/-- C13: whatever the cache holds, when the body fetched by `Update` does
not decode into the registry shape, `Update` returns an error and the
bootstrap file and the metadata file are exactly as before the call; when
the directory could be created and the status is 200 the error is the
parse error `invalidData`. -/
theorem Update_undecodable_keeps_cache (j : CacheCodec) (env : Env) (d : Disk)
    (status : Nat) (body : String)
    (hfetch : env.fetch = .response status (some body))
    (hdec : j.decodeBootstrap body = none) :
    (∃ err, (Update j env d).1 = .error err) ∧
    (Update j env d).2 = d ∧
    (Update j env d).2.bootstrapFile = d.bootstrapFile ∧
    (Update j env d).2.metaFile = d.metaFile ∧
    (env.mkdirOk = true → status = 200 → (Update j env d).1 = .error .invalidData) := by
  have key : (∃ err, (Update j env d).1 = .error err) ∧ (Update j env d).2 = d := by
    unfold Update
    cases hm : env.mkdirOk with
    | false => exact ⟨⟨.mkdir, by simp⟩, by simp⟩
    | true =>
      by_cases hs : status = 200
      · subst hs
        exact ⟨⟨.invalidData, by simp [hfetch, hdec]⟩, by simp [hfetch, hdec]⟩
      · exact ⟨⟨.status status, by simp [hfetch, hs]⟩, by simp [hfetch, hs]⟩
  refine ⟨key.1, key.2, by rw [key.2], by rw [key.2], ?_⟩
  intro hm hs
  subst hs
  simp [Update, hm, hfetch, hdec]

/-- C13 witness: a cache holding the stale document, refreshed from a server
that answers with an HTML page. -/
theorem Update_undecodable_keeps_cache_witness :
    garbageEnv.fetch = .response 200 (some "<html>") ∧
    sampleCodec.decodeBootstrap "<html>" = none ∧
    (Update sampleCodec garbageEnv staleDisk).1 = .error .invalidData ∧
    (Update sampleCodec garbageEnv staleDisk).2 = staleDisk :=
  ⟨by decide, by decide,
   (Update_undecodable_keeps_cache sampleCodec garbageEnv staleDisk 200 "<html>"
      (by decide) (by decide)).2.2.2.2 (by decide) rfl,
   (Update_undecodable_keeps_cache sampleCodec garbageEnv staleDisk 200 "<html>"
      (by decide) (by decide)).2.1⟩

theorem countTLDs_eq (services : List (List (List String))) (n : Nat) :
    countTLDs services n = n + tldTotal services := by
  induction services generalizing n with
  | nil => simp [countTLDs, tldTotal]
  | cons service rest ih =>
    cases service with
    | nil =>
      simp only [countTLDs, ih]
      simp [tldTotal, labelsOf]
    | cons tlds more =>
      simp only [countTLDs, ih]
      simp [tldTotal, labelsOf]
      omega

/-- What a successful `Update` has seen and written. -/
theorem Update_ok_inv (j : CacheCodec) (env : Env) (d : Disk)
    (hok : (Update j env d).1 = .ok ()) :
    ∃ body b metaData, env.fetch = .response 200 (some body) ∧
      j.decodeBootstrap body = some b ∧
      j.encodeMeta { LastUpdated := env.fetchTime, Version := b.Version,
                     TLDCount := tldTotal b.Services } = some metaData ∧
      (Update j env d).2 = { bootstrapFile := some body, metaFile := some metaData } := by
  unfold Update at hok ⊢
  cases hm : env.mkdirOk with
  | false => simp [hm] at hok
  | true =>
    cases hf : env.fetch with
    | badRequest => simp [hm, hf] at hok
    | transportError => simp [hm, hf] at hok
    | response status readAll =>
      by_cases hs : status = 200
      · subst hs
        cases readAll with
        | none => simp [hm, hf] at hok
        | some body =>
          cases hd : j.decodeBootstrap body with
          | none => simp [hm, hf, hd] at hok
          | some b =>
            cases hb : env.bootstrapWrite with
            | failed r => simp [hm, hf, hd, hb] at hok
            | ok =>
              cases he : j.encodeMeta ⟨env.fetchTime, b.Version, countTLDs b.Services 0⟩ with
              | none => simp [hm, hf, hd, hb, he] at hok
              | some metaData =>
                cases hw : env.metaWrite with
                | failed r => simp [hm, hf, hd, hb, he, hw] at hok
                | ok =>
                  refine ⟨body, b, metaData, rfl, hd, ?_, ?_⟩
                  · rw [← he, countTLDs_eq]
                    simp
                  · simp [hd, he]
      · simp [hm, hf, hs] at hok

/-- C14: a successful `Update` has fetched a document that decodes to some
registry `b` and has written that document as the snapshot together with
the encoding of the metadata whose version is the version of `b`, whose TLD
count is the sum over all service entries of the size of the entry's label
list, and whose time stamp is the time of the call. Hence a second
successful `Update` with the remote document unchanged writes metadata with
the same version and the same TLD count, differing only in the time stamp,
and leaves the same snapshot. -/
theorem Update_metadata_idempotent (j : CacheCodec) (env : Env) (d : Disk)
    (hok : (Update j env d).1 = .ok ()) :
    (∃ body b metaData, env.fetch = .response 200 (some body) ∧
      j.decodeBootstrap body = some b ∧
      j.encodeMeta { LastUpdated := env.fetchTime, Version := b.Version,
                     TLDCount := tldTotal b.Services } = some metaData ∧
      (Update j env d).2 = { bootstrapFile := some body, metaFile := some metaData }) ∧
    (∀ env2, env2.fetch = env.fetch → (Update j env2 (Update j env d).2).1 = .ok () →
      ∃ m1 m2 data1 data2,
        j.encodeMeta m1 = some data1 ∧ (Update j env d).2.metaFile = some data1 ∧
        j.encodeMeta m2 = some data2 ∧
        (Update j env2 (Update j env d).2).2.metaFile = some data2 ∧
        m1.Version = m2.Version ∧ m1.TLDCount = m2.TLDCount ∧
        m1.LastUpdated = env.fetchTime ∧ m2.LastUpdated = env2.fetchTime ∧
        m2 = { m1 with LastUpdated := env2.fetchTime } ∧
        (Update j env2 (Update j env d).2).2.bootstrapFile
          = (Update j env d).2.bootstrapFile) := by
  obtain ⟨body, b, metaData, hf, hd, he, hdisk⟩ := Update_ok_inv j env d hok
  refine ⟨⟨body, b, metaData, hf, hd, he, hdisk⟩, ?_⟩
  intro env2 hsame hok2
  obtain ⟨body2, b2, metaData2, hf2, hd2, he2, hdisk2⟩ :=
    Update_ok_inv j env2 (Update j env d).2 hok2
  rw [hsame, hf] at hf2
  simp only [HttpOutcome.response.injEq, Option.some.injEq, true_and] at hf2
  subst hf2
  rw [hd] at hd2
  simp only [Option.some.injEq] at hd2
  subst hd2
  exact ⟨_, _, metaData, metaData2, he, by rw [hdisk], he2, by rw [hdisk2], rfl, rfl, rfl, rfl,
    rfl, by rw [hdisk2, hdisk]⟩

/-- C14 witness: two refreshes, one nanosecond apart, of a cache holding the
stale document, from a server serving the document `fresh`. -/
theorem Update_metadata_idempotent_witness :
    (Update sampleCodec (onlineEnv 1) staleDisk).1 = .ok () ∧
    (Update sampleCodec (onlineEnv 2) (Update sampleCodec (onlineEnv 1) staleDisk).2).1
      = .ok () ∧
    ∃ body b metaData, (onlineEnv 1).fetch = .response 200 (some body) ∧
      sampleCodec.decodeBootstrap body = some b ∧
      sampleCodec.encodeMeta { LastUpdated := (onlineEnv 1).fetchTime, Version := b.Version,
                               TLDCount := tldTotal b.Services } = some metaData ∧
      (Update sampleCodec (onlineEnv 1) staleDisk).2
        = { bootstrapFile := some body, metaFile := some metaData } :=
  ⟨by decide, by decide,
   (Update_metadata_idempotent sampleCodec (onlineEnv 1) staleDisk (by decide)).1⟩

/-! ## Validated domains -/

theorem lower_utf8Size (c : Char) (h : c ≤ 'z') : c.utf8Size = 1 := by
  have h3 : c.val.toNat ≤ 122 := h
  have h4 : c.val ≤ (127 : UInt32) := by
    show c.val.toNat ≤ 127
    omega
  unfold Char.utf8Size
  simp [h4]

theorem validRune_sound (partLen i : Nat) (c : Char) (h : validRune partLen i c = true) :
    labelChar c = true ∧ c.utf8Size = 1 ∧ (c = '-' → 0 < i ∧ i < partLen - 1) := by
  simp only [validRune, decide_eq_true_eq] at h
  refine ⟨?_, ?_, ?_⟩
  · simp only [labelChar, decide_eq_true_eq]
    rcases h with h | h | h
    · exact Or.inl h
    · exact Or.inr (Or.inl h)
    · exact Or.inr (Or.inr h.1)
  · rcases h with h | h | h
    · exact lower_utf8Size c h.2
    · exact lower_utf8Size c (le_trans h.2 (by decide))
    · rw [h.1]; decide
  · intro hc
    subst hc
    rcases h with h | h | h
    · exact absurd h.1 (by decide)
    · exact absurd h.1 (by decide)
    · exact ⟨h.2.1, h.2.2⟩

theorem validRunes_sound (partLen : Nat) (cs : List Char) (i : Nat)
    (h : validRunes partLen i cs = true) :
    (∀ c ∈ cs, labelChar c = true ∧ c.utf8Size = 1) ∧
    (∀ k, cs.get? k = some '-' → 0 < i + k ∧ i + k < partLen - 1) := by
  induction cs generalizing i with
  | nil => simp
  | cons c cs ih =>
    unfold validRunes at h
    cases hv : validRune partLen i c with
    | false => simp [hv] at h
    | true =>
      simp only [hv, Bool.not_true, Bool.false_eq_true, if_false] at h
      obtain ⟨hl, hsz, hdash⟩ := validRune_sound partLen i c hv
      rw [hsz] at h
      obtain ⟨ih1, ih2⟩ := ih (i + 1) h
      refine ⟨?_, ?_⟩
      · intro x hx
        rcases List.mem_cons.mp hx with rfl | hx
        · exact ⟨hl, hsz⟩
        · exact ih1 x hx
      · intro k hk
        cases k with
        | zero =>
          simp only [List.get?_cons_zero, Option.some.injEq] at hk
          simpa using hdash hk
        | succ k =>
          simp only [List.get?_cons_succ] at hk
          have := ih2 k hk
          omega

theorem utf8ByteSize_go_eq_length (cs : List Char) (h : ∀ c ∈ cs, c.utf8Size = 1) :
    String.utf8ByteSize.go cs = cs.length := by
  induction cs with
  | nil => rfl
  | cons c cs ih =>
    simp only [String.utf8ByteSize.go, List.length_cons]
    rw [ih (fun x hx => h x (List.mem_cons_of_mem _ hx)), h c (List.mem_cons_self _ _)]

theorem validParts_sound (parts : List String) (h : validParts parts = true) :
    ∀ p ∈ parts, p.toList ≠ [] ∧ (∀ c ∈ p.toList, labelChar c = true) ∧
      p.toList.head? ≠ some '-' ∧ p.toList.getLast? ≠ some '-' := by
  induction parts with
  | nil => simp
  | cons part rest ih =>
    unfold validParts at h
    by_cases h1 : len part = 0 ∨ len part > 63
    · simp [h1] at h
    · rw [if_neg h1] at h
      cases hv : validRunes (len part) 0 part.toList with
      | false => rw [hv] at h; simp at h
      | true =>
        rw [hv] at h
        simp only [Bool.not_true, Bool.false_eq_true, if_false] at h
        obtain ⟨hc, hd⟩ := validRunes_sound (len part) part.toList 0 hv
        have hlen : len part = part.toList.length := by
          show String.utf8ByteSize part = _
          cases part with
          | mk data => exact utf8ByteSize_go_eq_length data (fun c hm => (hc c hm).2)
        intro p hp
        rcases List.mem_cons.mp hp with rfl | hp
        · refine ⟨?_, fun c hm => (hc c hm).1, ?_, ?_⟩
          · intro he
            apply h1
            left
            rw [hlen, he]
            rfl
          · intro hh
            change p.toList.head? = some '-' at hh
            have hget : p.toList.get? 0 = some '-' := by
              rw [← hh]
              cases p.toList <;> rfl
            have := hd 0 hget
            omega
          · intro hh
            change p.toList.getLast? = some '-' at hh
            have hget : p.toList.get? (p.toList.length - 1) = some '-' := by
              rw [← hh, List.getLast?_eq_getElem?]
              simp
            have := hd _ hget
            omega
        · exact ih h p hp

theorem mem_splitChars_of_mem (sep : Char) (cs : List Char) :
    ∀ c ∈ cs, c = sep ∨ ∃ part ∈ splitChars sep cs, c ∈ part := by
  induction cs with
  | nil => simp
  | cons x xs ih =>
    intro c hc
    cases hs : splitChars sep xs with
    | nil => exact absurd hs (splitChars_ne_nil sep xs)
    | cons q qs =>
      rw [hs] at ih
      by_cases hx : x = sep
      · rcases List.mem_cons.mp hc with rfl | hc
        · exact Or.inl hx
        · rcases ih c hc with h | ⟨part, hp, hcp⟩
          · exact Or.inl h
          · refine Or.inr ⟨part, ?_, hcp⟩
            simp only [splitChars, hx, if_true, hs]
            exact List.mem_cons_of_mem _ hp
      · have hsplit : splitChars sep (x :: xs) = (x :: q) :: qs := by
          simp only [splitChars, hx, if_false, hs]
        rw [hsplit]
        rcases List.mem_cons.mp hc with rfl | hc
        · exact Or.inr ⟨c :: q, List.mem_cons_self _ _, List.mem_cons_self _ _⟩
        · rcases ih c hc with h | ⟨part, hp, hcp⟩
          · exact Or.inl h
          · rcases List.mem_cons.mp hp with rfl | hp
            · exact Or.inr ⟨x :: part, List.mem_cons_self _ _, List.mem_cons_of_mem _ hcp⟩
            · exact Or.inr ⟨part, List.mem_cons_of_mem _ hp, hcp⟩

theorem splitChars_single (sep : Char) (cs b : List Char) (h : splitChars sep cs = [b]) :
    cs = b := by
  have := splitChars_intercalate sep cs
  rw [h] at this
  simpa [List.intercalate] using this.symm

/-- When the split of `cs` ends with the part `b` after at least one other
part, `cs` ends with the separator followed by `b`, and what precedes the
separator splits into the other parts. -/
theorem splitChars_snoc (sep : Char) (cs : List Char) :
    ∀ (front : List (List Char)) (b : List Char), front ≠ [] →
      splitChars sep cs = front ++ [b] →
      ∃ pre, cs = pre ++ sep :: b ∧ splitChars sep pre = front := by
  induction cs with
  | nil =>
    intro front b hne h
    cases front with
    | nil => exact absurd rfl hne
    | cons f fs =>
      have := congrArg List.length h
      simp [splitChars] at this
  | cons c cs ih =>
    intro front b hne h
    cases front with
    | nil => exact absurd rfl hne
    | cons f fs =>
      by_cases hc : c = sep
      · simp only [splitChars, hc, if_true, List.cons_append, List.cons.injEq] at h
        obtain ⟨hf, hrest⟩ := h
        cases fs with
        | nil =>
          have hb := splitChars_single sep cs b (by simpa using hrest)
          exact ⟨[], by simp [hc, hb], by simp [splitChars, ← hf]⟩
        | cons g gs =>
          obtain ⟨pre, hpre, hsplit⟩ := ih (g :: gs) b (by simp) hrest
          exact ⟨sep :: pre, by simp [hc, hpre], by simp [splitChars, hsplit, ← hf]⟩
      · cases hs : splitChars sep cs with
        | nil => exact absurd hs (splitChars_ne_nil sep cs)
        | cons q qs =>
          simp only [splitChars, hc, if_false, hs, List.cons_append, List.cons.injEq] at h
          obtain ⟨hf, hrest⟩ := h
          obtain ⟨pre, hpre, hsplit⟩ := ih (q :: fs) b (by simp) (by rw [hs, hrest]; rfl)
          exact ⟨c :: pre, by simp [hpre], by simp [splitChars, hc, hsplit, ← hf]⟩

theorem exists_last_two_parts (parts : List (List Char)) (h : 2 ≤ parts.length) :
    ∃ init a b, parts = init ++ [a, b] := by
  induction parts with
  | nil => simp at h
  | cons x xs ih =>
    match xs, h, ih with
    | [], h, _ => simp at h
    | [y], _, _ => exact ⟨[], x, y, rfl⟩
    | y :: z :: zs, _, ih =>
      obtain ⟨init, a, b, hab⟩ := ih (by simp)
      exact ⟨x :: init, a, b, by rw [hab]; rfl⟩

theorem extractTLD_of_parts (domain : String) (init : List String) (a b : String)
    (h : splitDot domain = init ++ [a, b]) :
    rdap.extractTLD domain =
      if init ≠ [] ∧ a ++ "." ++ b ∈ rdap.secondLevel then a ++ "." ++ b else b := by
  unfold rdap.extractTLD
  rw [h]
  have h2 : ¬ (init ++ [a, b]).length < 2 := by simp
  simp only [h2, if_false, getD_last, getD_before_last, ge_iff_le]
  cases init with
  | nil => simp
  | cons x xs =>
    by_cases hm : a ++ "." ++ b ∈ rdap.secondLevel <;> simp [hm]

/-- C16: every domain accepted by `isValidDomain` consists only of the
characters `a`-`z`, `0`-`9`, `-` and `.`, has at least two labels, none of
them empty or beginning or ending with `-`, and `extractTLD` returns for it a
non-empty effective TLD `s` such that the domain is a non-empty string
followed by `.` followed by `s`. -/
theorem isValidDomain_sound (domain : String) (h : isValidDomain domain = true) :
    (∀ c ∈ domain.toList, domainChar c = true) ∧
    2 ≤ (splitDot domain).length ∧
    (∀ label ∈ splitDot domain, label ≠ "" ∧
      label.toList.head? ≠ some '-' ∧ label.toList.getLast? ≠ some '-') ∧
    rdap.extractTLD domain ≠ "" ∧
    ∃ pre, pre ≠ "" ∧ domain = pre ++ "." ++ rdap.extractTLD domain := by
  -- unpack the three checks of `isValidDomain`
  unfold isValidDomain at h
  by_cases hlen : len domain < 3 ∨ len domain > 253
  · simp [hlen] at h
  rw [if_neg hlen] at h
  by_cases hparts : (splitDot domain).length < 2
  · simp [hparts] at h
  simp only [hparts, if_false] at h
  have hvalid := validParts_sound (splitDot domain) h
  have htwo : 2 ≤ (splitDot domain).length := by omega
  have hmk : ∀ q ∈ splitChars '.' domain.toList, String.mk q ∈ splitDot domain := by
    intro q hq
    exact List.mem_map.mpr ⟨q, hq, rfl⟩
  have hne : ∀ q ∈ splitChars '.' domain.toList, q ≠ [] :=
    fun q hq => (hvalid _ (hmk q hq)).1
  -- the last two parts
  have hlen2 : 2 ≤ (splitChars '.' domain.toList).length := by
    simpa [splitDot] using htwo
  obtain ⟨I, A, B, hP⟩ := exists_last_two_parts _ hlen2
  have hA : A ≠ [] := hne A (by rw [hP]; simp)
  have hB : B ≠ [] := hne B (by rw [hP]; simp)
  have hsplit : splitDot domain = I.map String.mk ++ [String.mk A, String.mk B] := by
    unfold splitDot
    rw [hP]
    simp
  obtain ⟨pre1, hd1, hs1⟩ := splitChars_snoc '.' domain.toList (I ++ [A]) B (by simp)
    (by rw [hP]; simp)
  have hpre1 : pre1 ≠ [] := by
    intro he
    rw [he] at hs1
    cases I with
    | nil =>
      simp only [splitChars, List.nil_append, List.cons.injEq, and_true] at hs1
      exact hA hs1.symm
    | cons x xs =>
      have := congrArg List.length hs1
      simp [splitChars] at this
  have htld := extractTLD_of_parts domain (I.map String.mk) (String.mk A) (String.mk B) hsplit
  refine ⟨?_, htwo, ?_, ?_, ?_⟩
  · intro c hc
    rcases mem_splitChars_of_mem '.' domain.toList c hc with hdot | ⟨q, hq, hcq⟩
    · simp [domainChar, hdot]
    · have := (hvalid _ (hmk q hq)).2.1 c hcq
      simp [domainChar, this]
  · intro label hl
    obtain ⟨h1, _, h3, h4⟩ := hvalid label hl
    refine ⟨?_, h3, h4⟩
    intro he
    apply h1
    rw [he]
    rfl
  · rw [htld]
    split
    · intro he
      have := congrArg String.toList he
      simp at this
    · intro he
      have := congrArg String.toList he
      simp at this
      exact hB this
  · rw [htld]
    split
    · next hc =>
      have hI : I ≠ [] := by
        intro he
        apply hc.1
        simp [he]
      obtain ⟨I0, C, rfl⟩ : ∃ I0 C, I = I0 ++ [C] :=
        ⟨I.dropLast, I.getLast hI, (List.dropLast_append_getLast hI).symm⟩
      obtain ⟨pre2, hd2, hs2⟩ := splitChars_snoc '.' pre1 (I0 ++ [C]) A (by simp) hs1
      have hC : C ≠ [] := hne C (by rw [hP]; simp)
      have hpre2 : pre2 ≠ [] := by
        intro he
        rw [he] at hs2
        cases I0 with
        | nil =>
          simp only [splitChars, List.nil_append, List.cons.injEq, and_true] at hs2
          exact hC hs2.symm
        | cons x xs =>
          have := congrArg List.length hs2
          simp [splitChars] at this
      refine ⟨String.mk pre2, ?_, ?_⟩
      · intro he
        have := congrArg String.toList he
        simp at this
        exact hpre2 this
      · apply String.ext
        have hd : domain.data = pre2 ++ '.' :: A ++ '.' :: B := by
          have : domain.toList = pre1 ++ '.' :: B := hd1
          rw [hd2] at this
          simpa using this
        rw [hd]
        simp
    · refine ⟨String.mk pre1, ?_, ?_⟩
      · intro he
        have := congrArg String.toList he
        simp at this
        exact hpre1 this
      · apply String.ext
        have hd : domain.data = pre1 ++ '.' :: B := hd1
        rw [hd]
        simp

/-- C16 witness: the domain `shop.example.co.uk`. -/
theorem isValidDomain_sound_witness :
    isValidDomain "shop.example.co.uk" = true ∧
    rdap.extractTLD "shop.example.co.uk" = "co.uk" ∧
    ∃ pre, pre ≠ "" ∧
      "shop.example.co.uk" = pre ++ "." ++ rdap.extractTLD "shop.example.co.uk" :=
  ⟨by decide, by decide, (isValidDomain_sound "shop.example.co.uk" (by decide)).2.2.2.2⟩

/-! ## The JSON round trip -/

theorem lookupKey_append (key : String) (l1 l2 : List (String × JSON)) :
    lookupKey key (l1 ++ l2) = (lookupKey key l2).or (lookupKey key l1) := by
  induction l1 with
  | nil => simp [lookupKey, Option.or_none]
  | cons kv rest ih =>
    obtain ⟨k, v⟩ := kv
    rw [List.cons_append, lookupKey, ih, lookupKey]
    cases lookupKey key l2 with
    | some w => rfl
    | none => rfl

theorem lookupKey_cons (key k : String) (v : JSON) (rest : List (String × JSON)) :
    lookupKey key ((k, v) :: rest) =
      (lookupKey key rest).or (if k = key then some v else none) := by
  rw [lookupKey]
  cases lookupKey key rest <;> rfl

theorem lookupKey_nil (key : String) : lookupKey key [] = none := rfl

theorem lookupKey_strField (key k value : String) :
    lookupKey key (strField k value) =
      if k = key ∧ value ≠ "" then some (.str value) else none := by
  unfold strField
  by_cases hv : value = ""
  · simp [hv, lookupKey]
  · by_cases hk : k = key <;> simp [hv, hk, lookupKey]

theorem lookupKey_listField (key k : String) (values : List String) :
    lookupKey key (listField k values) =
      if k = key ∧ values ≠ [] then some (.arr (values.map JSON.str)) else none := by
  unfold listField
  cases values with
  | nil => simp [lookupKey]
  | cons x xs => by_cases hk : k = key <;> simp [hk, lookupKey]

theorem decodeString_member (value : String) :
    decodeString (if value ≠ "" then some (.str value) else none) = some value := by
  by_cases hv : value = ""
  · simp [hv, decodeString]
  · simp [hv, decodeString]

theorem decodeString_member_not (value : String) :
    decodeString (if ¬ value = "" then some (.str value) else none) = some value :=
  decodeString_member value

theorem decodeString_str (value : String) : decodeString (some (.str value)) = some value := rfl

theorem decodeBool_bool (b : Bool) : decodeBool (some (.bool b)) = some b := rfl

theorem decodeElements_map (values : List String) :
    decodeElements (values.map JSON.str) = some values := by
  induction values with
  | nil => rfl
  | cons x xs ih => simp [decodeElements, decodeString, ih]

theorem decodeStrings_member (values : List String) :
    decodeStrings (if values ≠ [] then some (.arr (values.map JSON.str)) else none)
      = some values := by
  cases values with
  | nil => simp [decodeStrings]
  | cons x xs =>
    simp only [ne_eq, reduceCtorEq, not_false_eq_true, if_true, decodeStrings]
    exact decodeElements_map (x :: xs)

theorem unmarshal_marshal_ParsedData (p : ParsedData) :
    unmarshalParsedData (marshalParsedData p) = some p := by
  unfold marshalParsedData unmarshalParsedData
  simp only [lookupKey_append, lookupKey_strField, lookupKey_listField, String.reduceEq,
    false_and, true_and, if_false, Option.none_or, Option.or_none, decodeString_member,
    decodeStrings_member]

theorem decodeParsed_marshal (p : ParsedData) :
    decodeParsed (some (marshalParsedData p)) = some (some p) := by
  have h := unmarshal_marshal_ParsedData p
  unfold marshalParsedData at h ⊢
  simp only [decodeParsed, h]

theorem unmarshal_marshal_LookupResult (r : LookupResult) :
    unmarshalLookupResult (marshalLookupResult r) = some r := by
  have hp : decodeParsed (lookupKey "parsed"
      (match r.Parsed with
       | none => []
       | some p => [("parsed", marshalParsedData p)])) = some r.Parsed := by
    cases r.Parsed with
    | none => rfl
    | some p =>
      simp only [lookupKey, if_true]
      exact decodeParsed_marshal p
  have hn : ∀ key, key ≠ "parsed" → lookupKey key
      (match r.Parsed with
       | none => []
       | some p => [("parsed", marshalParsedData p)]) = none := by
    intro key hk
    cases r.Parsed with
    | none => rfl
    | some p => simp [lookupKey, Ne.symm hk]
  unfold marshalLookupResult unmarshalLookupResult
  simp only [lookupKey_append, lookupKey_strField, lookupKey_cons, lookupKey_nil, hn, ne_eq,
    String.reduceEq, not_false_eq_true, false_and, true_and, if_false, if_true,
    Option.none_or, Option.or_none, Option.or_some, decodeString_member,
    decodeString_member_not, decodeString_str, decodeBool_bool, hp]

theorem lookupKey_raw_marshal (r : LookupResult) :
    lookupKey "raw" (members (marshalLookupResult r)) =
      if r.Raw ≠ "" then some (.str r.Raw) else none := by
  have hn : lookupKey "raw"
      (match r.Parsed with
       | none => []
       | some p => [("parsed", marshalParsedData p)]) = none := by
    cases r.Parsed with
    | none => rfl
    | some p => simp [lookupKey]
  unfold marshalLookupResult members
  simp only [lookupKey_append, lookupKey_strField, lookupKey_cons, lookupKey_nil, hn,
    String.reduceEq, true_and, false_and, if_false, Option.or_none, Option.none_or]

/-- C15: for every `LookupResult` and every printer, the line `printJSON`
prints is the rendering of the JSON value of `printedResult`, the result
with `Raw` kept only under the raw flag; decoding that JSON value back into
a `LookupResult` gives `printedResult` again, which agrees with the result
on domain, available, method, message and parsed record; decoding the JSON
value of any result gives the result back; and the member `raw` occurs in
the output only when the raw flag is set (and the raw payload is not
empty). Slices are compared as sequences of elements. -/
theorem printJSON_round_trip (indent : JSON → Option String) (p : Printer)
    (r : LookupResult) :
    (∀ data, printJSON indent p r = .ok data ↔
      indent (marshalLookupResult (printedResult p r)) = some data) ∧
    unmarshalLookupResult (marshalLookupResult (printedResult p r)) = some (printedResult p r) ∧
    ((printedResult p r).Domain = r.Domain ∧ (printedResult p r).Available = r.Available ∧
      (printedResult p r).Method = r.Method ∧ (printedResult p r).Message = r.Message ∧
      (printedResult p r).Parsed = r.Parsed) ∧
    (printedResult p r).Raw = (if p.rawOutput then r.Raw else "") ∧
    unmarshalLookupResult (marshalLookupResult r) = some r ∧
    (lookupKey "raw" (members (marshalLookupResult (printedResult p r))) =
      if p.rawOutput = true ∧ r.Raw ≠ "" then some (.str r.Raw) else none) ∧
    unmarshalLookupResult (marshalLookupResult (printedResult (NewPrinter true false) sampleResult))
      = some { sampleResult with Raw := "" } := by
  refine ⟨?_, unmarshal_marshal_LookupResult _, ?_, ?_, unmarshal_marshal_LookupResult r, ?_,
    by decide⟩
  · intro data
    unfold printJSON
    cases indent (marshalLookupResult (printedResult p r)) <;> simp
  · unfold printedResult
    cases p.rawOutput <;> simp
  · unfold printedResult
    cases p.rawOutput <;> simp
  · rw [lookupKey_raw_marshal]
    unfold printedResult
    cases p.rawOutput <;> simp

end DomainDetails
